import Mathlib

/-!
Shallow embedding of the Odoo-mirror synchronization service:
the reconciliation engine (`app/tasks.py`), the paginated remote client
(`app/odoo_client.py`) and the dynamic Redis-backed scheduler
(`app/scheduler.py`), together with proofs of the spec's claims.
Timestamps are modelled as `Nat`, record ids as `Int`, and values coming
over Odoo's JSON-RPC as explicit sum types so that the Python
`dict.get` / `False`-sentinel behaviour is captured faithfully.
-/

set_option autoImplicit false

namespace OdooSync

/-- A raw Odoo string-ish field as delivered over JSON-RPC and read with
`dict.get`: the key may be absent (`missing`, `.get` yields Python `None`),
the value may be the literal `False` that Odoo uses for unset fields
(`bfalse`), or it is a string. -/
inductive OdooVal where
  | missing
  | bfalse
  | s (v : String)
deriving DecidableEq, Repr

/-- A raw numeric Odoo field (`amount_total`, `amount_residual`):
absent key, the `False` sentinel, or a number. -/
inductive OdooNum where
  | missing
  | bfalse
  | num (v : Int)
deriving DecidableEq, Repr

/-- A raw relational reference field (`partner_id`, `currency_id`): Odoo sends
either a `[id, label]` pair, sometimes a one-element list, or a non-sequence
value (`False`, absent key, or anything that is not a list/tuple). -/
inductive OdooRef where
  | scalar
  | tup0
  | tup1 (id : Int)
  | tup2 (id : Int) (label : String)
deriving DecidableEq, Repr

/-- `odoo_value` from `app/tasks.py` (lines 70-72 and 168-170) composed with
`dict.get`: Python `None` stays `None`, `False` becomes `None`, a string is
kept. -/
def odoo_value : OdooVal → Option String
  | .missing => none
  | .bfalse => none
  | .s v => some v

/-- The raw result of `odoo_invoice.get(k)` for a numeric field, stored without
any conversion (tasks.py lines 216-217 / 234-235). `Stored` below records what
actually lands in the local column. -/
inductive Stored (α : Type) where
  | null
  | falseVal
  | val (a : α)
deriving DecidableEq, Repr

/-- What `odoo_invoice.get("amount_total")` (and `amount_residual`) evaluates
to, stored directly into the local row. -/
def getNumRaw : OdooNum → Stored Int
  | .missing => .null
  | .bfalse => .falseVal
  | .num v => .val v

/-- What `odoo_invoice.get("state")` evaluates to, stored directly into the
local row. -/
def getStrRaw : OdooVal → Stored String
  | .missing => .null
  | .bfalse => .falseVal
  | .s v => .val v

/-- Python's `value or default` for a `.get` result: `None`, `False` and the
empty string are falsy, any other string is kept (tasks.py line 79:
`odoo_contact.get("name") or ""`). -/
def pyOrDefault (v : OdooVal) (d : String) : String :=
  match v with
  | .s x => if x = "" then d else x
  | _ => d

/-- `write_date` handling in `_sync_contacts_async` (tasks.py lines 62-67):
`if odoo_contact.get("write_date"):` guards on truthiness (absent, `False` and
`""` all skip), then `datetime.fromisoformat(s.replace("Z", "+00:00"))` inside
`try/except` yields `None` on failure. The external datetime parser is the
parameter `fromiso`. -/
def parseContactWriteDate (fromiso : String → Option String) : OdooVal → Option String
  | .s v => if v = "" then none else fromiso (v.replace "Z" "+00:00")
  | .missing => none
  | .bfalse => none

/-- `parse_datetime` from `_sync_invoices_async` (tasks.py lines 173-180):
`if not date_str or date_str is False: return None`, then the guarded
`fromisoformat` call returning `None` on parse failure. -/
def parse_datetime (fromiso : String → Option String) : OdooVal → Option String
  | .s v => if v = "" then none else fromiso (v.replace "Z" "+00:00")
  | .missing => none
  | .bfalse => none

/-- `extract_tuple_values` from `_sync_invoices_async` (tasks.py lines
183-189): a sequence of length at least two yields `(v[0], v[1])`, length one
yields `(v[0], None)`, anything else `(None, None)`. -/
def extract_tuple_values : OdooRef → Option Int × Option String
  | .tup2 i l => (some i, some l)
  | .tup1 i => (some i, none)
  | .tup0 => (none, none)
  | .scalar => (none, none)

/-- A remote contact record as fetched by `get_all_contacts`
(fields `id, name, email, phone, write_date`). -/
structure RemoteContact where
  id : Int
  name : OdooVal
  email : OdooVal
  phone : OdooVal
  write_date : OdooVal
deriving DecidableEq, Repr

/-- The local `contacts` row (`app/models.py` lines 6-16). The surrogate
primary key is irrelevant to the claims and omitted; `created_at`/`updated_at`
carry the `datetime.utcnow` column defaults. -/
structure Contact where
  odoo_id : Int
  name : String
  email : Option String
  phone : Option String
  write_date : Option String
  created_at : Nat
  updated_at : Nat
deriving DecidableEq, Repr

/-- A remote invoice record as fetched by `get_all_invoices`. -/
structure RemoteInvoice where
  id : Int
  name : OdooVal
  move_type : OdooVal
  invoice_date : OdooVal
  partner_id : OdooRef
  amount_total : OdooNum
  amount_residual : OdooNum
  state : OdooVal
  currency_id : OdooRef
  write_date : OdooVal
  create_date : OdooVal
deriving DecidableEq, Repr

/-- The local `invoices` row (`app/models.py` lines 22-40). The three fields
stored without conversion keep the `Stored` type since `_sync_invoices_async`
can put the Python `False` sentinel in them. -/
structure Invoice where
  odoo_id : Int
  name : String
  move_type : String
  invoice_date : Option String
  partner_id : Option Int
  partner_name : Option String
  amount_total : Stored Int
  amount_residual : Stored Int
  state : Stored String
  currency_id : Option Int
  currency_name : Option String
  write_date : Option String
  create_date : Option String
  created_at : Nat
  updated_at : Nat
deriving DecidableEq, Repr

/-- Counters returned by a successful sync run (tasks.py lines 105-112 /
253-260). -/
structure SyncResult where
  inserted : Nat
  updated : Nat
  deleted : Nat
  total : Nat
deriving DecidableEq, Repr

/-- Mutate the first list element satisfying `p` (the row returned by
`db.query(...).filter(...).first()`), leaving every other row alone. -/
def updateFirst {α : Type} (p : α → Bool) (f : α → α) : List α → List α
  | [] => []
  | x :: xs => if p x then f x :: xs else x :: updateFirst p f xs

/-- The insert-or-update loop shared verbatim by `_sync_contacts_async`
(tasks.py lines 58-95) and `_sync_invoices_async` (lines 192-243),
parameterized by the per-entity field mapper: for each remote record, if a
local row with the same remote id exists the first such row is overwritten,
otherwise a fresh row is appended. The session autoflushes, so a row inserted
earlier in the loop is visible to later `.first()` queries. -/
def reconLoop {R L : Type} (rid : R → Int) (lid : L → Int)
    (updRow : R → L → L) (mkRow : R → L) :
    List R → List L → Nat → Nat → List L × Nat × Nat
  | [], store, ins, upd => (store, ins, upd)
  | r :: rs, store, ins, upd =>
    if (store.find? (fun l => lid l == rid r)).isSome then
      reconLoop rid lid updRow mkRow rs
        (updateFirst (fun l => lid l == rid r) (updRow r) store) ins (upd + 1)
    else
      reconLoop rid lid updRow mkRow rs (store ++ [mkRow r]) (ins + 1) upd

/-- A Python `set` built from a list (`{c.odoo_id for c in existing}`):
deduplicated list, used for membership and `len`. -/
def idSet (l : List Int) : List Int := l.dedup

/-- The whole body of one sync run (either entity kind): early return when the
remote fetch came back empty (tasks.py lines 45-46 / 155-156, no counters and
no writes), otherwise the insert-or-update loop followed by the bulk delete of
local rows whose remote id is not among the fetched ids (lines 97-101 /
245-249) and the result counters. -/
def reconcileRun {R L : Type} (rid : R → Int) (lid : L → Int)
    (updRow : R → L → L) (mkRow : R → L)
    (remote : List R) (store : List L) : Option SyncResult × List L :=
  if remote.isEmpty then (none, store)
  else
    let existingIds := idSet (store.map lid)
    let fetchedIds := idSet (remote.map rid)
    let out := reconLoop rid lid updRow mkRow remote store 0 0
    let toDelete := existingIds.filter (fun i => decide (¬ i ∈ fetchedIds))
    if toDelete.isEmpty then
      (some ⟨out.2.1, out.2.2, 0, remote.length⟩, out.1)
    else
      (some ⟨out.2.1, out.2.2, toDelete.length, remote.length⟩,
        out.1.filter (fun l => decide (¬ lid l ∈ toDelete)))

/-- Field mapping of the insert branch for contacts (tasks.py lines 86-94);
`created_at`/`updated_at` take the `datetime.utcnow` column defaults, modelled
as the current time `now`. -/
def mkContact (fromiso : String → Option String) (now : Nat) (rc : RemoteContact) : Contact :=
  { odoo_id := rc.id
    name := pyOrDefault rc.name ""
    email := odoo_value rc.email
    phone := odoo_value rc.phone
    write_date := parseContactWriteDate fromiso rc.write_date
    created_at := now
    updated_at := now }

/-- Field mapping of the update branch for contacts (tasks.py lines 78-83):
full overwrite of every mapped field plus `updated_at = datetime.utcnow()`. -/
def updContact (fromiso : String → Option String) (now : Nat) (rc : RemoteContact)
    (c : Contact) : Contact :=
  { c with
    name := pyOrDefault rc.name ""
    email := odoo_value rc.email
    phone := odoo_value rc.phone
    write_date := parseContactWriteDate fromiso rc.write_date
    updated_at := now }

/-- `_sync_contacts_async` (tasks.py lines 35-112) up to its commit: the pair
of the returned counters (`none` models the early "No contacts found" return)
and the table contents written by the run. -/
def sync_contacts_async (fromiso : String → Option String) (now : Nat)
    (remote : List RemoteContact) (store : List Contact) : Option SyncResult × List Contact :=
  reconcileRun (fun r => r.id) (fun c => c.odoo_id)
    (updContact fromiso now) (mkContact fromiso now) remote store

/-- Field mapping of the insert branch for invoices (tasks.py lines 226-243).
Note that `amount_total`, `amount_residual` and `state` are the raw `.get`
results, without the `odoo_value` conversion. -/
def mkInvoice (fromiso : String → Option String) (now : Nat) (ri : RemoteInvoice) : Invoice :=
  { odoo_id := ri.id
    name := pyOrDefault ri.name ""
    move_type := pyOrDefault ri.move_type "out_invoice"
    invoice_date := parse_datetime fromiso ri.invoice_date
    partner_id := (extract_tuple_values ri.partner_id).1
    partner_name := (extract_tuple_values ri.partner_id).2
    amount_total := getNumRaw ri.amount_total
    amount_residual := getNumRaw ri.amount_residual
    state := getStrRaw ri.state
    currency_id := (extract_tuple_values ri.currency_id).1
    currency_name := (extract_tuple_values ri.currency_id).2
    write_date := parse_datetime fromiso ri.write_date
    create_date := parse_datetime fromiso ri.create_date
    created_at := now
    updated_at := now }

/-- Field mapping of the update branch for invoices (tasks.py lines 209-224):
full overwrite plus `updated_at = datetime.utcnow()`. -/
def updInvoice (fromiso : String → Option String) (now : Nat) (ri : RemoteInvoice)
    (v : Invoice) : Invoice :=
  { v with
    name := pyOrDefault ri.name ""
    move_type := pyOrDefault ri.move_type "out_invoice"
    invoice_date := parse_datetime fromiso ri.invoice_date
    partner_id := (extract_tuple_values ri.partner_id).1
    partner_name := (extract_tuple_values ri.partner_id).2
    amount_total := getNumRaw ri.amount_total
    amount_residual := getNumRaw ri.amount_residual
    state := getStrRaw ri.state
    currency_id := (extract_tuple_values ri.currency_id).1
    currency_name := (extract_tuple_values ri.currency_id).2
    write_date := parse_datetime fromiso ri.write_date
    create_date := parse_datetime fromiso ri.create_date
    updated_at := now }

/-- `_sync_invoices_async` (tasks.py lines 146-260) up to its commit. -/
def sync_invoices_async (fromiso : String → Option String) (now : Nat)
    (remote : List RemoteInvoice) (store : List Invoice) : Option SyncResult × List Invoice :=
  reconcileRun (fun r => r.id) (fun v => v.odoo_id)
    (updInvoice fromiso now) (mkInvoice fromiso now) remote store

/-- `updated_at` bookkeeping on a contact row: what
`existing_contact.updated_at = datetime.utcnow()` changes. -/
def stampContact (now : Nat) (c : Contact) : Contact := { c with updated_at := now }

/-- `updated_at` bookkeeping on an invoice row. -/
def stampInvoice (now : Nat) (v : Invoice) : Invoice := { v with updated_at := now }

/-- Errors that can abort a sync run: a failed remote fetch (auth/transport
errors raised by `OdooClient`), a database error raised while processing some
remote record, and a failure of the final `db.commit()`. -/
inductive SyncErr where
  | fetchFailed
  | rowFailed
  | commitFailed
deriving DecidableEq, Repr

/-- The insert-or-update loop with an injected database failure: processing of
the record at position `failAt` raises. All writes go to the session's pending
state, which the caller discards on error. -/
def reconLoopF {R L : Type} (rid : R → Int) (lid : L → Int)
    (updRow : R → L → L) (mkRow : R → L) (failAt : Option Nat) (k : Nat) :
    List R → List L → Nat → Nat → Except SyncErr (List L × Nat × Nat)
  | [], store, ins, upd => .ok (store, ins, upd)
  | r :: rs, store, ins, upd =>
    if failAt = some k then .error .rowFailed
    else if (store.find? (fun l => lid l == rid r)).isSome then
      reconLoopF rid lid updRow mkRow failAt (k + 1) rs
        (updateFirst (fun l => lid l == rid r) (updRow r) store) ins (upd + 1)
    else
      reconLoopF rid lid updRow mkRow failAt (k + 1) rs (store ++ [mkRow r]) (ins + 1) upd

/-- One sync run with its transaction boundary (tasks.py lines 37-118 /
148-266): every write targets the session's pending state; `db.commit()` at
the end publishes it to the store of record, while the `except` arm calls
`db.rollback()` — discarding the pending state — and re-raises the error to
the caller. `fetch` is the outcome of the remote fetch, `failAt` injects a
database error into the loop, `commitOk = false` makes the final commit fail.
The returned list is the committed store contents after the run. -/
def reconcileAtomic {R L : Type} (rid : R → Int) (lid : L → Int)
    (updRow : R → L → L) (mkRow : R → L)
    (fetch : Except SyncErr (List R)) (failAt : Option Nat) (commitOk : Bool)
    (committed : List L) : Except SyncErr (Option SyncResult) × List L :=
  match fetch with
  | .error e => (.error e, committed)
  | .ok remote =>
    if remote.isEmpty then (.ok none, committed)
    else
      match reconLoopF rid lid updRow mkRow failAt 0 remote committed 0 0 with
      | .error e => (.error e, committed)
      | .ok out =>
        let existingIds := idSet (committed.map lid)
        let fetchedIds := idSet (remote.map rid)
        let toDelete := existingIds.filter (fun i => decide (¬ i ∈ fetchedIds))
        let pending :=
          if toDelete.isEmpty then out.1
          else out.1.filter (fun l => decide (¬ lid l ∈ toDelete))
        if commitOk then
          (.ok (some ⟨out.2.1, out.2.2, toDelete.length, remote.length⟩), pending)
        else (.error .commitFailed, committed)

/-- `_sync_contacts_async` with its transaction boundary. -/
def sync_contacts_atomic (fromiso : String → Option String) (now : Nat)
    (fetch : Except SyncErr (List RemoteContact)) (failAt : Option Nat) (commitOk : Bool)
    (committed : List Contact) : Except SyncErr (Option SyncResult) × List Contact :=
  reconcileAtomic (fun r => r.id) (fun c => c.odoo_id)
    (updContact fromiso now) (mkContact fromiso now) fetch failAt commitOk committed

/-- `_sync_invoices_async` with its transaction boundary. -/
def sync_invoices_atomic (fromiso : String → Option String) (now : Nat)
    (fetch : Except SyncErr (List RemoteInvoice)) (failAt : Option Nat) (commitOk : Bool)
    (committed : List Invoice) : Except SyncErr (Option SyncResult) × List Invoice :=
  reconcileAtomic (fun r => r.id) (fun v => v.odoo_id)
    (updInvoice fromiso now) (mkInvoice fromiso now) fetch failAt commitOk committed

/-- The fixed page size of `get_all_contacts` / `get_all_invoices`
(`limit = 100`, odoo_client.py lines 94 and 170). -/
def pageLimit : Nat := 100

/-- The pagination loop of `get_all_contacts` (odoo_client.py lines 90-109)
and `get_all_invoices` (lines 166-185) against a fixed remote snapshot:
`fetchPage(limit, offset)` returns `(remote.drop offset).take limit` (the
`search_read` offset/limit contract). The loop stops on an empty page, or
after extending with a page shorter than the page size; otherwise it advances
the offset by the page size. The second component records every issued page
request's offset, in order. -/
def getAllFrom {α : Type} (remote : List α) (offset : Nat) : List α × List Nat :=
  let page := (remote.drop offset).take pageLimit
  if page.isEmpty then ([], [offset])
  else if page.length < pageLimit then (page, [offset])
  else
    let rest := getAllFrom remote (offset + pageLimit)
    (page ++ rest.1, offset :: rest.2)
termination_by remote.length - offset
decreasing_by
  have hlt : offset < remote.length := by
    by_contra hge
    have hdrop : remote.drop offset = [] :=
      List.drop_eq_nil_of_le (Nat.le_of_not_lt hge)
    simp_all [page, pageLimit]
  exact Nat.sub_lt_sub_left hlt (Nat.lt_add_of_pos_right (by decide))

/-- `get_all_contacts`: full pagination starting at offset 0, returning the
combined records and the list of issued request offsets. -/
def get_all_contacts (remote : List RemoteContact) : List RemoteContact × List Nat :=
  getAllFrom remote 0

/-- `get_all_invoices`: same pagination loop over invoice records. -/
def get_all_invoices (remote : List RemoteInvoice) : List RemoteInvoice × List Nat :=
  getAllFrom remote 0

/-- A schedule entry's job specification as decoded from JSON
(`task_config` in scheduler.py): every key is read with `.get` and may be
absent, except `task` which is read with `task_config["task"]` and raises
`KeyError` when absent. `args`/`kwargs`/`options` are opaque payloads. -/
structure TaskConfig where
  task : Option String
  schedule_type : Option String
  minute : Option String
  hour : Option String
  day_of_week : Option String
  day_of_month : Option String
  month_of_year : Option String
  interval_seconds : Option Nat
  args : Option (List String)
  kwargs : Option (List (String × String))
  options : Option (List (String × String))
deriving DecidableEq, Repr

/-- A raw serialized value stored in the Redis hash: either a string that
`json.loads` rejects, or one that decodes to a `TaskConfig`. -/
inductive RawValue where
  | invalid
  | valid (cfg : TaskConfig)
deriving DecidableEq, Repr

/-- A concrete timing rule built by `_add_or_update_task` (scheduler.py lines
77-89): a celery `crontab(...)` over the five pattern fields, or a fixed
`schedule(run_every=seconds)`. -/
inductive TaskSchedule where
  | crontabRule (minute hour day_of_week day_of_month month_of_year : String)
  | intervalRule (run_every : Nat)
deriving DecidableEq, Repr

/-- A materialized `ScheduleEntry` of the in-memory execution plan
(scheduler.py lines 92-99). -/
structure SchedEntry where
  name : String
  task : String
  sched : TaskSchedule
  args : List String
  kwargs : List (String × String)
  options : List (String × String)
deriving DecidableEq, Repr

/-- The in-memory execution plan `self.schedule`: a Python dict, i.e. an
insertion-ordered association list with unique keys. -/
abbrev Plan := List (String × SchedEntry)

/-- Python dict assignment `self.schedule[name] = entry`: replace in place if
the key is present, append otherwise. -/
def dictSet (p : Plan) (k : String) (v : SchedEntry) : Plan :=
  if p.any (fun e => e.1 == k) then
    p.map (fun e => if e.1 == k then (k, v) else e)
  else p ++ [(k, v)]

/-- Lookup in the plan dict. -/
def dictGet (p : Plan) (k : String) : Option SchedEntry :=
  (p.find? (fun e => e.1 == k)).map (fun e => e.2)

/-- Log events emitted by one sync pass: a `json.JSONDecodeError` logged at
scheduler.py line 63, or a per-entry failure logged at line 105. -/
inductive SyncLogEvent where
  | parseFailed (name : String)
  | addFailed (name : String)
deriving DecidableEq, Repr

/-- The external celery `crontab(minute, hour, day_of_week, day_of_month,
month_of_year)` constructor eagerly validates its five pattern fields and
raises on an invalid pattern (an exception then caught by the catch-all at
scheduler.py line 104). Which patterns celery accepts is decided outside this
repository, so that validation is abstracted as a predicate on the five
fields; the claims hold for every such predicate. -/
abbrev CrontabOk : Type := String → String → String → String → String → Bool

/-- Timing construction in `_add_or_update_task` (scheduler.py lines 74-89):
`schedule_type` defaults to `"interval"`; only the exact value `"crontab"`
selects a crontab rule, with each of the five fields defaulting to `"*"` —
construction fails (`none`: celery's `crontab(...)` raises) when the external
validation rejects the patterns. Otherwise an interval rule with
`interval_seconds` defaulting to 300, whose construction from an integer does
not raise. -/
def buildTaskSchedule (crontab_ok : CrontabOk) (cfg : TaskConfig) : Option TaskSchedule :=
  if cfg.schedule_type.getD "interval" = "crontab" then
    if crontab_ok (cfg.minute.getD "*") (cfg.hour.getD "*") (cfg.day_of_week.getD "*")
        (cfg.day_of_month.getD "*") (cfg.month_of_year.getD "*") then
      some (.crontabRule (cfg.minute.getD "*") (cfg.hour.getD "*")
        (cfg.day_of_week.getD "*") (cfg.day_of_month.getD "*") (cfg.month_of_year.getD "*"))
    else none
  else some (.intervalRule (cfg.interval_seconds.getD 300))

/-- The entry built at scheduler.py lines 92-99 from a successfully constructed
timing rule and the required `task` field. -/
def mkSchedEntry (name : String) (cfg : TaskConfig) (t : String)
    (sched : TaskSchedule) : SchedEntry :=
  { name := name
    task := t
    sched := sched
    args := cfg.args.getD []
    kwargs := cfg.kwargs.getD []
    options := cfg.options.getD [] }

/-- `_add_or_update_task` (scheduler.py lines 71-105): build the timing rule,
then the entry, and store it under `task_name`; any exception — celery
rejecting the crontab pattern fields during `crontab(...)` construction, or
the `KeyError` from `task_config["task"]` — is caught and logged, and the plan
is left untouched for this entry. -/
def add_or_update_task (crontab_ok : CrontabOk) (plan : Plan) (name : String)
    (cfg : TaskConfig) : Plan × List SyncLogEvent :=
  match buildTaskSchedule crontab_ok cfg with
  | none => (plan, [.addFailed name])
  | some sched =>
    match cfg.task with
    | none => (plan, [.addFailed name])
    | some t => (dictSet plan name (mkSchedEntry name cfg t sched), [])

/-- Result of one `sync_schedule_from_redis` call: the new plan, the new
`last_sync`, and the log events of the pass. -/
structure SyncOutcome where
  plan : Plan
  last_sync : Option Nat
  log : List SyncLogEvent
deriving DecidableEq, Repr

/-- Processing of one Redis hash entry inside the loop at scheduler.py lines
58-63: an entry whose value fails `json.loads` is logged and skipped, a
decodable one goes through `_add_or_update_task`. -/
def syncFoldStep (crontab_ok : CrontabOk) (acc : Plan × List SyncLogEvent)
    (kv : String × RawValue) : Plan × List SyncLogEvent :=
  match kv.2 with
  | .invalid => (acc.1, acc.2 ++ [.parseFailed kv.1])
  | .valid cfg =>
    let step := add_or_update_task crontab_ok acc.1 kv.1 cfg
    (step.1, acc.2 ++ step.2)

/-- Body of the `try` block of `sync_schedule_from_redis` (scheduler.py lines
44-69): read the whole hash; on a Redis error the outer `except` logs and
returns with the plan and `last_sync` untouched. Otherwise remove every plan
key no longer present in Redis, then fold `_add_or_update_task` over the hash
entries, skipping (and logging) entries whose value fails `json.loads`, and
finally set `last_sync = now`. -/
def syncBody (crontab_ok : CrontabOk) (now : Nat) (last_sync : Option Nat)
    (hgetall : Except Unit (List (String × RawValue))) (plan : Plan) : SyncOutcome :=
  match hgetall with
  | .error _ => ⟨plan, last_sync, []⟩
  | .ok schedule_data =>
    let redis_names := schedule_data.map (fun e => e.1)
    let afterRemove := plan.filter (fun e => decide (e.1 ∈ redis_names))
    let folded := schedule_data.foldl (syncFoldStep crontab_ok) (afterRemove, [])
    ⟨folded.1, some now, folded.2⟩

/-- `sync_schedule_from_redis` (scheduler.py lines 34-69): the throttle check
(`if self.last_sync and (now - self.last_sync).total_seconds() <
self.sync_interval: return`) followed by the sync body. `hgetall` is the
outcome of `self.redis_client.hgetall(self.schedule_key)`. -/
def sync_schedule_from_redis (crontab_ok : CrontabOk) (now : Nat)
    (last_sync : Option Nat) (sync_interval : Nat)
    (hgetall : Except Unit (List (String × RawValue))) (plan : Plan) : SyncOutcome :=
  match last_sync with
  | some t =>
    if now - t < sync_interval then ⟨plan, last_sync, []⟩
    else syncBody crontab_ok now last_sync hgetall plan
  | none => syncBody crontab_ok now last_sync hgetall plan

/-- The key a store entry contributes to the plan: only an entry that decodes,
whose timing rule builds, and which carries the required `task` field is
added/replaced. -/
def addedKey (crontab_ok : CrontabOk) (kv : String × RawValue) : Option String :=
  match kv.2 with
  | .invalid => none
  | .valid cfg =>
    match buildTaskSchedule crontab_ok cfg with
    | none => none
    | some _ =>
      match cfg.task with
      | none => none
      | some _ => some kv.1

/-- The log events one store entry contributes during a sync pass. -/
def entryLog (crontab_ok : CrontabOk) (kv : String × RawValue) : List SyncLogEvent :=
  match kv.2 with
  | .invalid => [.parseFailed kv.1]
  | .valid cfg =>
    match buildTaskSchedule crontab_ok cfg with
    | none => [.addFailed kv.1]
    | some _ =>
      match cfg.task with
      | none => [.addFailed kv.1]
      | some _ => []

/-- A concrete instance of the external crontab validation (a validator that
accepts every pattern), used to instantiate the scheduler claims on concrete
inputs. -/
def crontabOkAny : CrontabOk := fun _ _ _ _ _ => true

/-- Abstract stand-in for the external `datetime.fromisoformat`; the claims
never depend on its value, only on the code paths around it, so any fixed
function serves as a concrete instance. -/
def isoId : String → Option String := fun v => some v

/-- A minimal local contact row used in concrete instances. -/
def cRow (i : Int) : Contact :=
  { odoo_id := i, name := "", email := none, phone := none, write_date := none
    created_at := 0, updated_at := 0 }

/-- A minimal remote contact record used in concrete instances. -/
def rcRec (i : Int) : RemoteContact :=
  { id := i, name := .s "n", email := .missing, phone := .missing, write_date := .missing }

/-- The invoice record exhibiting the `False` handling slip: Odoo reports
`amount_total = False`, `amount_residual = False`, `state = False`. -/
def badRemoteInvoice : RemoteInvoice :=
  { id := 1, name := .s "INV/1", move_type := .s "out_invoice", invoice_date := .missing
    partner_id := .scalar, amount_total := .bfalse, amount_residual := .bfalse
    state := .bfalse, currency_id := .scalar, write_date := .missing, create_date := .missing }

/-- A valid schedule store config used in concrete instances. -/
def cfgA : TaskConfig :=
  { task := some "app.tasks.sync_contacts", schedule_type := some "interval"
    minute := none, hour := none, day_of_week := none, day_of_month := none
    month_of_year := none, interval_seconds := some 300
    args := none, kwargs := none, options := none }

/-- A 150-record remote contact snapshot (two pages of 100 and 50). -/
def remote150 : List RemoteContact := (List.range 150).map (fun i => rcRec (Int.ofNat i))

/-- A local row is the image of remote record `r` when it was last written by
the update branch or the insert branch for `r`. -/
def isImage {R L : Type} (updRow : R → L → L) (mkRow : R → L) (r : R) (x : L) : Prop :=
  (∃ y, x = updRow r y) ∨ x = mkRow r

/-- Branch-free normal form of the non-empty case of `reconcileRun`, used by
the proofs: the `if contacts_to_delete:` guard of the source is observationally
the identity when the delete set is empty. -/
def reconOutcome {R L : Type} (rid : R → Int) (lid : L → Int)
    (updRow : R → L → L) (mkRow : R → L)
    (remote : List R) (store : List L) : SyncResult × List L :=
  let existingIds := idSet (store.map lid)
  let fetchedIds := idSet (remote.map rid)
  let out := reconLoop rid lid updRow mkRow remote store 0 0
  let toDelete := existingIds.filter (fun i => decide (¬ i ∈ fetchedIds))
  (⟨out.2.1, out.2.2, toDelete.length, remote.length⟩,
    out.1.filter (fun l => decide (¬ lid l ∈ toDelete)))

/-! ### Lemmas about `updateFirst` -/

theorem updateFirst_length {α : Type} (p : α → Bool) (f : α → α) (l : List α) :
    (updateFirst p f l).length = l.length := by
  induction l with
  | nil => rfl
  | cons x xs ih => by_cases h : p x <;> simp [updateFirst, h, ih]

theorem map_updateFirst {α β : Type} (p : α → Bool) (f : α → α) (g : α → β)
    (hg : ∀ x, g (f x) = g x) (l : List α) :
    (updateFirst p f l).map g = l.map g := by
  induction l with
  | nil => rfl
  | cons x xs ih => by_cases h : p x <;> simp [updateFirst, h, ih, hg]

theorem mem_updateFirst {α : Type} {p : α → Bool} {f : α → α} {l : List α} {x : α}
    (hx : x ∈ updateFirst p f l) : x ∈ l ∨ ∃ z, z ∈ l ∧ p z = true ∧ x = f z := by
  induction l with
  | nil => simp [updateFirst] at hx
  | cons a as ih =>
    by_cases h : p a
    · rw [updateFirst, if_pos h] at hx
      rcases List.mem_cons.mp hx with h1 | h1
      · exact Or.inr ⟨a, List.mem_cons_self a as, h, h1⟩
      · exact Or.inl (List.mem_cons_of_mem _ h1)
    · rw [updateFirst, if_neg h] at hx
      rcases List.mem_cons.mp hx with h1 | h1
      · exact Or.inl (h1 ▸ List.mem_cons_self a as)
      · rcases ih h1 with h2 | ⟨z, hz, hpz, hxz⟩
        · exact Or.inl (List.mem_cons_of_mem _ h2)
        · exact Or.inr ⟨z, List.mem_cons_of_mem _ hz, hpz, hxz⟩

theorem mem_updateFirst_key {α : Type} {g : α → Int} {f : α → α} {i : Int} :
    ∀ {l : List α}, (l.map g).Nodup → (∀ x, g (f x) = g x) →
    ∀ {x : α}, x ∈ updateFirst (fun a => g a == i) f l → g x = i →
    ∃ z, z ∈ l ∧ g z = i ∧ x = f z := by
  intro l
  induction l with
  | nil => intro _ _ x hx; simp [updateFirst] at hx
  | cons a as ih =>
    intro hnd hf x hx hgx
    rw [List.map_cons, List.nodup_cons] at hnd
    by_cases h : g a = i
    · rw [updateFirst, if_pos (by simp [h])] at hx
      rcases List.mem_cons.mp hx with h1 | h1
      · exact ⟨a, List.mem_cons_self a as, h, h1⟩
      · exact absurd (h ▸ hgx ▸ List.mem_map_of_mem g h1) hnd.1
    · rw [updateFirst, if_neg (by simp [h])] at hx
      rcases List.mem_cons.mp hx with h1 | h1
      · exact absurd (h1 ▸ hgx) h
      · obtain ⟨z, hz, hgz, hxz⟩ := ih hnd.2 hf h1 hgx
        exact ⟨z, List.mem_cons_of_mem _ hz, hgz, hxz⟩

/-! ### Lemmas about the insert-or-update loop -/

section ReconLoopLemmas

variable {R L : Type} (rid : R → Int) (lid : L → Int) (updRow : R → L → L) (mkRow : R → L)

theorem reconLoop_count :
    ∀ (rs : List R) (store : List L) (ins upd : Nat),
    (reconLoop rid lid updRow mkRow rs store ins upd).2.1 +
      (reconLoop rid lid updRow mkRow rs store ins upd).2.2 = ins + upd + rs.length := by
  intro rs
  induction rs with
  | nil => intro store ins upd; simp [reconLoop]
  | cons r rs ih =>
    intro store ins upd
    simp only [reconLoop]
    split
    · rw [ih]; simp; omega
    · rw [ih]; simp; omega

theorem reconLoop_map_super (hupd : ∀ r x, lid (updRow r x) = lid x) :
    ∀ (rs : List R) (store : List L) (ins upd : Nat) (i : Int),
    i ∈ store.map lid → i ∈ ((reconLoop rid lid updRow mkRow rs store ins upd).1).map lid := by
  intro rs
  induction rs with
  | nil => intro store ins upd i hi; simpa [reconLoop] using hi
  | cons r rs ih =>
    intro store ins upd i hi
    simp only [reconLoop]
    split
    · exact ih _ _ _ i (by rwa [map_updateFirst _ _ _ (hupd r)])
    · exact ih _ _ _ i (by simp [hi])

theorem reconLoop_map_sub (hupd : ∀ r x, lid (updRow r x) = lid x)
    (hmk : ∀ r, lid (mkRow r) = rid r) :
    ∀ (rs : List R) (store : List L) (ins upd : Nat) (i : Int),
    i ∈ ((reconLoop rid lid updRow mkRow rs store ins upd).1).map lid →
    i ∈ store.map lid ∨ i ∈ rs.map rid := by
  intro rs
  induction rs with
  | nil => intro store ins upd i hi; exact Or.inl (by simpa [reconLoop] using hi)
  | cons r rs ih =>
    intro store ins upd i hi
    simp only [reconLoop] at hi
    split at hi
    · rcases ih _ _ _ i hi with h1 | h1
      · exact Or.inl (by rwa [map_updateFirst _ _ _ (hupd r)] at h1)
      · exact Or.inr (List.mem_cons_of_mem _ h1)
    · rcases ih _ _ _ i hi with h1 | h1
      · rw [List.map_append] at h1
        rcases List.mem_append.mp h1 with h2 | h2
        · exact Or.inl h2
        · simp [hmk] at h2
          exact Or.inr (h2 ▸ List.mem_cons_self _ _)
      · exact Or.inr (List.mem_cons_of_mem _ h1)

theorem reconLoop_mem_rid (hupd : ∀ r x, lid (updRow r x) = lid x)
    (hmk : ∀ r, lid (mkRow r) = rid r) :
    ∀ (rs : List R) (store : List L) (ins upd : Nat) (r : R),
    r ∈ rs → rid r ∈ ((reconLoop rid lid updRow mkRow rs store ins upd).1).map lid := by
  intro rs
  induction rs with
  | nil => intro store ins upd r hr; simp at hr
  | cons r0 rs ih =>
    intro store ins upd r hr
    rcases List.mem_cons.mp hr with h | h
    · subst h
      simp only [reconLoop]
      split
      · rename_i hfound
        obtain ⟨x, hx, hpx⟩ := List.find?_isSome.mp hfound
        apply reconLoop_map_super rid lid updRow mkRow hupd
        rw [map_updateFirst _ _ _ (hupd r)]
        exact (eq_of_beq hpx) ▸ List.mem_map_of_mem lid hx
      · apply reconLoop_map_super rid lid updRow mkRow hupd
        simp [hmk]
    · simp only [reconLoop]
      split
      · exact ih _ _ _ r h
      · exact ih _ _ _ r h

theorem reconLoop_no_insert (hupd : ∀ r x, lid (updRow r x) = lid x) :
    ∀ (rs : List R) (store : List L) (ins upd : Nat),
    (∀ r ∈ rs, rid r ∈ store.map lid) →
    (reconLoop rid lid updRow mkRow rs store ins upd).2.1 = ins := by
  intro rs
  induction rs with
  | nil => intro store ins upd _; simp [reconLoop]
  | cons r rs ih =>
    intro store ins upd hall
    have hmem : rid r ∈ store.map lid := hall r (List.mem_cons_self _ _)
    obtain ⟨x, hx, hlx⟩ := List.mem_map.mp hmem
    have hfound : (store.find? (fun l => lid l == rid r)).isSome :=
      List.find?_isSome.mpr ⟨x, hx, by simp [hlx]⟩
    simp only [reconLoop, hfound, if_pos]
    apply ih
    intro r' hr'
    rw [map_updateFirst _ _ _ (hupd r)]
    exact hall r' (List.mem_cons_of_mem _ hr')

theorem step_nodup_insert {store : List L} {r : R} (hmk : ∀ r, lid (mkRow r) = rid r)
    (hnone : store.find? (fun l => lid l == rid r) = none)
    (hnd : (store.map lid).Nodup) : ((store ++ [mkRow r]).map lid).Nodup := by
  have hnotin : rid r ∉ store.map lid := by
    intro hmem
    obtain ⟨x, hx, hlx⟩ := List.mem_map.mp hmem
    have := List.find?_eq_none.mp hnone x hx
    simp [hlx] at this
  simp [List.nodup_append, hnd, hmk, hnotin]

theorem reconLoop_nodup (hupd : ∀ r x, lid (updRow r x) = lid x)
    (hmk : ∀ r, lid (mkRow r) = rid r) :
    ∀ (rs : List R) (store : List L) (ins upd : Nat),
    (store.map lid).Nodup →
    (((reconLoop rid lid updRow mkRow rs store ins upd).1).map lid).Nodup := by
  intro rs
  induction rs with
  | nil => intro store ins upd hnd; simpa [reconLoop] using hnd
  | cons r rs ih =>
    intro store ins upd hnd
    simp only [reconLoop]
    split
    · exact ih _ _ _ (by rwa [map_updateFirst _ _ _ (hupd r)])
    · rename_i hfound
      exact ih _ _ _ (step_nodup_insert rid lid mkRow hmk
        (Option.not_isSome_iff_eq_none.mp hfound) hnd)

theorem reconLoop_untouched (hupd : ∀ r x, lid (updRow r x) = lid x)
    (hmk : ∀ r, lid (mkRow r) = rid r) :
    ∀ (rs : List R) (store : List L) (ins upd : Nat) (i : Int) (x : L),
    i ∉ rs.map rid → x ∈ (reconLoop rid lid updRow mkRow rs store ins upd).1 →
    lid x = i → x ∈ store := by
  intro rs
  induction rs with
  | nil => intro store ins upd i x _ hx _; simpa [reconLoop] using hx
  | cons r rs ih =>
    intro store ins upd i x hni hx hlx
    have hne : i ≠ rid r := by
      intro h; exact hni (h ▸ List.mem_cons_self _ _)
    have hni' : i ∉ rs.map rid := fun h => hni (List.mem_cons_of_mem _ h)
    simp only [reconLoop] at hx
    split at hx
    · have hx' := ih _ _ _ i x hni' hx hlx
      rcases mem_updateFirst hx' with h1 | ⟨z, _, hpz, hxz⟩
      · exact h1
      · exfalso
        apply hne
        rw [← hlx, hxz, hupd r z]
        exact eq_of_beq hpz
    · have hx' := ih _ _ _ i x hni' hx hlx
      rcases List.mem_append.mp hx' with h1 | h1
      · exact h1
      · exfalso
        apply hne
        rw [← hlx, List.mem_singleton.mp h1, hmk r]

theorem reconLoop_provenance (hupd : ∀ r x, lid (updRow r x) = lid x)
    (hmk : ∀ r, lid (mkRow r) = rid r) :
    ∀ (rs : List R) (store : List L) (ins upd : Nat),
    (store.map lid).Nodup → (rs.map rid).Nodup →
    ∀ r, r ∈ rs → ∀ x, x ∈ (reconLoop rid lid updRow mkRow rs store ins upd).1 →
    lid x = rid r → isImage updRow mkRow r x := by
  intro rs
  induction rs with
  | nil => intro store ins upd _ _ r hr; simp at hr
  | cons r0 rs ih =>
    intro store ins upd hndL hndR r hr x hx hlx
    rw [List.map_cons, List.nodup_cons] at hndR
    rcases List.mem_cons.mp hr with h | h
    · subst h
      simp only [reconLoop] at hx
      split at hx
      · have hx' : x ∈ updateFirst (fun l => lid l == rid r) (updRow r) store :=
          reconLoop_untouched rid lid updRow mkRow hupd hmk _ _ _ _ _ _ hndR.1 hx hlx
        obtain ⟨z, _, _, hxz⟩ := mem_updateFirst_key hndL (hupd r) hx' hlx
        exact Or.inl ⟨z, hxz⟩
      · rename_i hfound
        have hx' : x ∈ store ++ [mkRow r] :=
          reconLoop_untouched rid lid updRow mkRow hupd hmk _ _ _ _ _ _ hndR.1 hx hlx
        rcases List.mem_append.mp hx' with h1 | h1
        · exfalso
          have := List.find?_eq_none.mp (Option.not_isSome_iff_eq_none.mp hfound) x h1
          simp [hlx] at this
        · exact Or.inr (List.mem_singleton.mp h1)
    · simp only [reconLoop] at hx
      split at hx
      · exact ih _ _ _ (by rwa [map_updateFirst _ _ _ (hupd r0)]) hndR.2 r h x hx hlx
      · rename_i hfound
        exact ih _ _ _ (step_nodup_insert rid lid mkRow hmk
          (Option.not_isSome_iff_eq_none.mp hfound) hndL) hndR.2 r h x hx hlx

end ReconLoopLemmas

/-! ### Pointwise second-pass machinery -/

theorem forall2_updateFirst {α : Type} {rel : α → α → Prop} {p : α → Bool} {f : α → α} :
    ∀ {s cur : List α}, List.Forall₂ rel s cur →
    (∀ a b, a ∈ s → rel a b → p b = true → rel a (f b)) →
    List.Forall₂ rel s (updateFirst p f cur) := by
  intro s cur h
  induction h with
  | nil => intro _; exact List.Forall₂.nil
  | @cons a b s' cur' hab htail ih =>
    intro hcond
    by_cases hp : p b
    · rw [updateFirst, if_pos hp]
      exact List.Forall₂.cons (hcond a b (List.mem_cons_self _ _) hab hp) htail
    · rw [updateFirst, if_neg hp]
      exact List.Forall₂.cons hab (ih (fun x y hx => hcond x y (List.mem_cons_of_mem _ hx)))

theorem forall2_map_eq {α β : Type} {g : α → β} :
    ∀ {s t : List α}, List.Forall₂ (fun a b => g b = g a) s t → t.map g = s.map g := by
  intro s t h
  induction h with
  | nil => rfl
  | cons hab _ ih => simp [ih, hab]

theorem reconLoop_pointwise {R L : Type} (rid : R → Int) (lid : L → Int)
    (updRow : R → L → L) (mkRow : R → L) (stamp : L → L)
    (hstamp : ∀ x, lid (stamp x) = lid x) :
    ∀ (rs : List R) (s1 cur : List L) (ins upd : Nat),
    (∀ r ∈ rs, ∀ x ∈ s1, lid x = rid r → updRow r x = stamp x ∧ updRow r (stamp x) = stamp x) →
    (∀ r ∈ rs, rid r ∈ s1.map lid) →
    List.Forall₂ (fun a b => b = a ∨ b = stamp a) s1 cur →
    List.Forall₂ (fun a b => b = a ∨ b = stamp a) s1
      (reconLoop rid lid updRow mkRow rs cur ins upd).1 := by
  intro rs
  induction rs with
  | nil => intro s1 cur ins upd _ _ hrel; simpa [reconLoop] using hrel
  | cons r rs ih =>
    intro s1 cur ins upd hfix hpres hrel
    have hmapeq : cur.map lid = s1.map lid := by
      apply forall2_map_eq
      apply hrel.imp
      intro a b hb
      rcases hb with h | h
      · rw [h]
      · rw [h, hstamp]
    have hpr := hpres r (List.mem_cons_self _ _)
    rw [← hmapeq] at hpr
    obtain ⟨x, hx, hlx⟩ := List.mem_map.mp hpr
    have hfound : (cur.find? (fun l => lid l == rid r)).isSome :=
      List.find?_isSome.mpr ⟨x, hx, by simp [hlx]⟩
    simp only [reconLoop, hfound, if_pos]
    apply ih
    · intro r' hr'
      exact hfix r' (List.mem_cons_of_mem _ hr')
    · intro r' hr'
      exact hpres r' (List.mem_cons_of_mem _ hr')
    · apply forall2_updateFirst hrel
      intro a b ha hab hpb
      have hlab : lid b = lid a := by
        rcases hab with h | h
        · rw [h]
        · rw [h, hstamp]
      have hla : lid a = rid r := by
        have hb : lid b = rid r := by simpa using hpb
        rw [← hlab, hb]
      rcases hab with h | h
      · subst h
        exact Or.inr (hfix r (List.mem_cons_self _ _) b ha hla).1
      · subst h
        exact Or.inr (hfix r (List.mem_cons_self _ _) a ha hla).2

/-! ### Run-level lemmas -/

theorem reconcileRun_eq {R L : Type} (rid : R → Int) (lid : L → Int)
    (updRow : R → L → L) (mkRow : R → L) (remote : List R) (store : List L) :
    reconcileRun rid lid updRow mkRow remote store =
      if remote.isEmpty then (none, store)
      else (some (reconOutcome rid lid updRow mkRow remote store).1,
            (reconOutcome rid lid updRow mkRow remote store).2) := by
  by_cases hre : remote.isEmpty
  · simp [reconcileRun, hre]
  · simp only [reconcileRun, reconOutcome, hre, Bool.false_eq_true, if_false]
    split
    · rename_i hdel
      rw [List.isEmpty_iff] at hdel
      rw [hdel]
      simp
    · rfl

theorem length_filter_idSet (A B : List Int) :
    ((idSet A).filter (fun i => decide (¬ i ∈ B))).length =
      (A.toFinset \ B.toFinset).card := by
  have hnd : ((idSet A).filter (fun i => decide (¬ i ∈ B))).Nodup :=
    (List.nodup_dedup A).filter _
  rw [← List.toFinset_card_of_nodup hnd]
  congr 1
  ext i
  simp [idSet, List.mem_filter, Finset.mem_sdiff]

section RunLemmas

variable {R L : Type} (rid : R → Int) (lid : L → Int) (updRow : R → L → L) (mkRow : R → L)

theorem reconOutcome_counts (remote : List R) (store : List L) :
    (reconOutcome rid lid updRow mkRow remote store).1.inserted +
      (reconOutcome rid lid updRow mkRow remote store).1.updated = remote.length ∧
    (reconOutcome rid lid updRow mkRow remote store).1.total = remote.length ∧
    (reconOutcome rid lid updRow mkRow remote store).1.deleted =
      ((store.map lid).toFinset \ (remote.map rid).toFinset).card := by
  refine ⟨?_, rfl, ?_⟩
  · simpa using reconLoop_count rid lid updRow mkRow remote store 0 0
  · exact length_filter_idSet (store.map lid) (idSet (remote.map rid)) |>.trans (by
      congr 1
      congr 1
      ext i
      simp [idSet])

theorem reconOutcome_deletes (remote : List R) (store : List L) (i : Int)
    (hi : i ∈ store.map lid) (hni : i ∉ remote.map rid) :
    i ∉ ((reconOutcome rid lid updRow mkRow remote store).2).map lid := by
  intro hmem
  obtain ⟨x, hx, hlx⟩ := List.mem_map.mp hmem
  have hx2 := (List.mem_filter.mp hx).2
  rw [decide_eq_true_eq] at hx2
  apply hx2
  apply List.mem_filter.mpr
  refine ⟨by rw [hlx]; exact List.mem_dedup.mpr hi, ?_⟩
  rw [decide_eq_true_eq, hlx]
  intro hin
  exact hni (List.mem_dedup.mp hin)

theorem reconOutcome_mem_rid (hupd : ∀ r x, lid (updRow r x) = lid x)
    (hmk : ∀ r, lid (mkRow r) = rid r)
    (remote : List R) (store : List L) (r : R) (hr : r ∈ remote) :
    rid r ∈ ((reconOutcome rid lid updRow mkRow remote store).2).map lid := by
  obtain ⟨x, hx, hlx⟩ := List.mem_map.mp
    (reconLoop_mem_rid rid lid updRow mkRow hupd hmk remote store 0 0 r hr)
  refine List.mem_map.mpr ⟨x, List.mem_filter.mpr ⟨hx, ?_⟩, hlx⟩
  rw [decide_eq_true_eq]
  intro hmem
  have h2 := (List.mem_filter.mp hmem).2
  rw [decide_eq_true_eq] at h2
  apply h2
  rw [hlx]
  exact List.mem_dedup.mpr (List.mem_map_of_mem rid hr)

theorem reconOutcome_ids_fetched (hupd : ∀ r x, lid (updRow r x) = lid x)
    (hmk : ∀ r, lid (mkRow r) = rid r)
    (remote : List R) (store : List L) (i : Int)
    (hi : i ∈ ((reconOutcome rid lid updRow mkRow remote store).2).map lid) :
    i ∈ remote.map rid := by
  obtain ⟨x, hx, hlx⟩ := List.mem_map.mp hi
  obtain ⟨hx1, hx2⟩ := List.mem_filter.mp hx
  rw [decide_eq_true_eq] at hx2
  rcases reconLoop_map_sub rid lid updRow mkRow hupd hmk remote store 0 0 (lid x)
      (List.mem_map_of_mem lid hx1) with h1 | h1
  · by_contra hni
    apply hx2
    apply List.mem_filter.mpr
    refine ⟨List.mem_dedup.mpr h1, ?_⟩
    rw [decide_eq_true_eq]
    intro hin
    exact hni (hlx ▸ List.mem_dedup.mp hin)
  · exact hlx ▸ h1

theorem reconOutcome_nodup (hupd : ∀ r x, lid (updRow r x) = lid x)
    (hmk : ∀ r, lid (mkRow r) = rid r)
    (remote : List R) (store : List L) (hnd : (store.map lid).Nodup) :
    (((reconOutcome rid lid updRow mkRow remote store).2).map lid).Nodup := by
  have h1 := reconLoop_nodup rid lid updRow mkRow hupd hmk remote store 0 0 hnd
  exact ((List.filter_sublist _).map lid).nodup h1

theorem reconOutcome_provenance (hupd : ∀ r x, lid (updRow r x) = lid x)
    (hmk : ∀ r, lid (mkRow r) = rid r)
    (remote : List R) (store : List L)
    (hndL : (store.map lid).Nodup) (hndR : (remote.map rid).Nodup)
    (r : R) (hr : r ∈ remote) (x : L)
    (hx : x ∈ (reconOutcome rid lid updRow mkRow remote store).2)
    (hlx : lid x = rid r) : isImage updRow mkRow r x :=
  reconLoop_provenance rid lid updRow mkRow hupd hmk remote store 0 0 hndL hndR r hr x
    (List.mem_filter.mp hx).1 hlx

theorem reconOutcome_no_deletes (remote : List R) (store : List L)
    (hall : ∀ i ∈ store.map lid, i ∈ remote.map rid) :
    (reconOutcome rid lid updRow mkRow remote store).1.deleted = 0 ∧
    (reconOutcome rid lid updRow mkRow remote store).2 =
      (reconLoop rid lid updRow mkRow remote store 0 0).1 := by
  have hnil : (idSet (store.map lid)).filter
      (fun i => decide (¬ i ∈ idSet (remote.map rid))) = [] := by
    rw [List.filter_eq_nil_iff]
    intro i hi
    rw [decide_eq_true_eq]
    intro hno
    exact hno (List.mem_dedup.mpr (hall i (List.mem_dedup.mp hi)))
  constructor
  · show ((idSet (store.map lid)).filter _).length = 0
    rw [hnil]
    rfl
  · show List.filter _ _ = _
    conv =>
      lhs
      rw [hnil]
    simp

theorem reconOutcome_no_insert (hupd : ∀ r x, lid (updRow r x) = lid x)
    (remote : List R) (store : List L)
    (hall : ∀ r ∈ remote, rid r ∈ store.map lid) :
    (reconOutcome rid lid updRow mkRow remote store).1.inserted = 0 :=
  reconLoop_no_insert rid lid updRow mkRow hupd remote store 0 0 hall

end RunLemmas

/-! ### Second-pass idempotence, generically -/

theorem reconcileRun_second_pass {R L : Type} (rid : R → Int) (lid : L → Int)
    (upd1 upd2 : R → L → L) (mk1 mk2 : R → L) (stamp : L → L)
    (hupd1 : ∀ r x, lid (upd1 r x) = lid x) (hmk1 : ∀ r, lid (mk1 r) = rid r)
    (hupd2 : ∀ r x, lid (upd2 r x) = lid x)
    (hstamp : ∀ x, lid (stamp x) = lid x)
    (hfix_upd : ∀ r y, upd2 r (upd1 r y) = stamp (upd1 r y))
    (hfix_mk : ∀ r, upd2 r (mk1 r) = stamp (mk1 r))
    (hstamp_upd : ∀ r x, upd2 r (stamp x) = upd2 r x)
    (remote : List R) (store : List L)
    (hne : remote ≠ [])
    (hndR : (remote.map rid).Nodup) (hndL : (store.map lid).Nodup) :
    ∃ res2 : SyncResult,
      (reconcileRun rid lid upd2 mk2 remote
        (reconcileRun rid lid upd1 mk1 remote store).2).1 = some res2 ∧
      res2.inserted = 0 ∧ res2.deleted = 0 ∧
      List.Forall₂ (fun a b => b = a ∨ b = stamp a)
        (reconcileRun rid lid upd1 mk1 remote store).2
        (reconcileRun rid lid upd2 mk2 remote
          (reconcileRun rid lid upd1 mk1 remote store).2).2 := by
  have hre : remote.isEmpty = false := by
    cases remote with
    | nil => exact absurd rfl hne
    | cons a l => rfl
  have hs1 : (reconcileRun rid lid upd1 mk1 remote store).2 =
      (reconOutcome rid lid upd1 mk1 remote store).2 := by
    rw [reconcileRun_eq]
    simp [hre]
  rw [hs1]
  set s1 := (reconOutcome rid lid upd1 mk1 remote store).2 with hs1d
  have hpres : ∀ r ∈ remote, rid r ∈ s1.map lid := fun r hr =>
    reconOutcome_mem_rid rid lid upd1 mk1 hupd1 hmk1 remote store r hr
  have hfet : ∀ i ∈ s1.map lid, i ∈ remote.map rid := fun i hi =>
    reconOutcome_ids_fetched rid lid upd1 mk1 hupd1 hmk1 remote store i hi
  have hfix : ∀ r ∈ remote, ∀ x ∈ s1, lid x = rid r →
      upd2 r x = stamp x ∧ upd2 r (stamp x) = stamp x := by
    intro r hr x hx hlx
    have himg := reconOutcome_provenance rid lid upd1 mk1 hupd1 hmk1 remote store
      hndL hndR r hr x hx hlx
    have h1 : upd2 r x = stamp x := by
      rcases himg with ⟨y, hy⟩ | hy
      · rw [hy, hfix_upd]
      · rw [hy, hfix_mk]
    exact ⟨h1, by rw [hstamp_upd, h1]⟩
  rw [reconcileRun_eq rid lid upd2 mk2 remote s1]
  simp only [hre, Bool.false_eq_true, if_false]
  refine ⟨(reconOutcome rid lid upd2 mk2 remote s1).1, rfl, ?_, ?_, ?_⟩
  · exact reconOutcome_no_insert rid lid upd2 mk2 hupd2 remote s1 hpres
  · exact (reconOutcome_no_deletes rid lid upd2 mk2 remote s1 hfet).1
  · rw [(reconOutcome_no_deletes rid lid upd2 mk2 remote s1 hfet).2]
    apply reconLoop_pointwise rid lid upd2 mk2 stamp hstamp remote s1 s1 0 0 hfix hpres
    exact List.forall₂_same.mpr (fun x _ => Or.inl rfl)

/-! ### Instance facts for the two field mappers -/

theorem updContact_lid (f : String → Option String) (n : Nat) (rc : RemoteContact)
    (c : Contact) : (updContact f n rc c).odoo_id = c.odoo_id := rfl

theorem mkContact_lid (f : String → Option String) (n : Nat) (rc : RemoteContact) :
    (mkContact f n rc).odoo_id = rc.id := rfl

theorem stampContact_lid (n : Nat) (c : Contact) :
    (stampContact n c).odoo_id = c.odoo_id := rfl

theorem updContact_updContact (f : String → Option String) (n n' : Nat)
    (rc : RemoteContact) (c : Contact) :
    updContact f n rc (updContact f n' rc c) = stampContact n (updContact f n' rc c) := rfl

theorem updContact_mkContact (f : String → Option String) (n n' : Nat) (rc : RemoteContact) :
    updContact f n rc (mkContact f n' rc) = stampContact n (mkContact f n' rc) := rfl

theorem updContact_stampContact (f : String → Option String) (n m : Nat)
    (rc : RemoteContact) (c : Contact) :
    updContact f n rc (stampContact m c) = updContact f n rc c := rfl

theorem updInvoice_lid (f : String → Option String) (n : Nat) (ri : RemoteInvoice)
    (v : Invoice) : (updInvoice f n ri v).odoo_id = v.odoo_id := rfl

theorem mkInvoice_lid (f : String → Option String) (n : Nat) (ri : RemoteInvoice) :
    (mkInvoice f n ri).odoo_id = ri.id := rfl

theorem stampInvoice_lid (n : Nat) (v : Invoice) :
    (stampInvoice n v).odoo_id = v.odoo_id := rfl

theorem updInvoice_updInvoice (f : String → Option String) (n n' : Nat)
    (ri : RemoteInvoice) (v : Invoice) :
    updInvoice f n ri (updInvoice f n' ri v) = stampInvoice n (updInvoice f n' ri v) := rfl

theorem updInvoice_mkInvoice (f : String → Option String) (n n' : Nat) (ri : RemoteInvoice) :
    updInvoice f n ri (mkInvoice f n' ri) = stampInvoice n (mkInvoice f n' ri) := rfl

theorem updInvoice_stampInvoice (f : String → Option String) (n m : Nat)
    (ri : RemoteInvoice) (v : Invoice) :
    updInvoice f n ri (stampInvoice m v) = updInvoice f n ri v := rfl

/-! ### Transaction-boundary lemmas -/

theorem reconLoopF_none {R L : Type} (rid : R → Int) (lid : L → Int)
    (updRow : R → L → L) (mkRow : R → L) :
    ∀ (rs : List R) (store : List L) (ins upd k : Nat),
    reconLoopF rid lid updRow mkRow none k rs store ins upd =
      .ok (reconLoop rid lid updRow mkRow rs store ins upd) := by
  intro rs
  induction rs with
  | nil => intro store ins upd k; rfl
  | cons r rs ih =>
    intro store ins upd k
    simp only [reconLoopF, reconLoop]
    rw [if_neg (by simp)]
    split
    · exact ih _ _ _ _
    · exact ih _ _ _ _

theorem reconcileAtomic_error {R L : Type} (rid : R → Int) (lid : L → Int)
    (updRow : R → L → L) (mkRow : R → L) :
    ∀ (fetch : Except SyncErr (List R)) (failAt : Option Nat) (commitOk : Bool)
      (committed : List L) (e : SyncErr),
    (reconcileAtomic rid lid updRow mkRow fetch failAt commitOk committed).1 = .error e →
    (reconcileAtomic rid lid updRow mkRow fetch failAt commitOk committed).2 = committed := by
  intro fetch failAt commitOk committed e h
  cases fetch with
  | error e' => rfl
  | ok remote =>
    by_cases hre : remote.isEmpty
    · simp [reconcileAtomic, hre] at h
    · cases hloop : reconLoopF rid lid updRow mkRow failAt 0 remote committed 0 0 with
      | error e' => simp [reconcileAtomic, hre, hloop]
      | ok out =>
        by_cases hc : commitOk
        · simp [reconcileAtomic, hre, hloop, hc] at h
        · simp [reconcileAtomic, hre, hloop, hc]

theorem reconcileAtomic_ok {R L : Type} (rid : R → Int) (lid : L → Int)
    (updRow : R → L → L) (mkRow : R → L) (remote : List R) (committed : List L) :
    reconcileAtomic rid lid updRow mkRow (.ok remote) none true committed =
      (.ok (reconcileRun rid lid updRow mkRow remote committed).1,
       (reconcileRun rid lid updRow mkRow remote committed).2) := by
  by_cases hre : remote.isEmpty
  · simp [reconcileAtomic, reconcileRun, hre]
  · rw [reconcileRun_eq]
    simp only [reconcileAtomic, reconOutcome, hre, Bool.false_eq_true, if_false,
      reconLoopF_none rid lid updRow mkRow, eq_self_iff_true, if_true]
    split
    · rename_i hdel
      rw [List.isEmpty_iff] at hdel
      rw [hdel]
      simp
    · rfl

/-! ### Pagination lemmas -/

theorem range_map_mul_shift (c pl m : Nat) :
    (List.range (m + 1)).map (fun k => c + k * pl) =
      c :: (List.range m).map (fun k => c + pl + k * pl) := by
  rw [List.range_succ_eq_map, List.map_cons, List.map_map]
  have h0 : c + 0 * pl = c := by ring
  rw [h0]
  congr 1
  apply List.map_congr_left
  intro k _
  simp only [Function.comp_apply, Nat.succ_eq_add_one]
  ring

theorem getAllFrom_spec {α : Type} (remote : List α) :
    ∀ (offset : Nat), getAllFrom remote offset =
      (remote.drop offset,
        (List.range ((remote.length - offset) / pageLimit + 1)).map
          (fun k => offset + k * pageLimit)) := by
  have main : ∀ (n offset : Nat), remote.length - offset ≤ n →
      getAllFrom remote offset =
        (remote.drop offset,
          (List.range ((remote.length - offset) / pageLimit + 1)).map
            (fun k => offset + k * pageLimit)) := by
    intro n
    induction n with
    | zero =>
      intro offset hle
      have hdrop : remote.drop offset = [] :=
        List.drop_eq_nil_of_le (by omega)
      rw [getAllFrom]
      simp [hdrop, Nat.sub_eq_zero_of_le (by omega : remote.length ≤ offset)]
      rfl
    | succ n ih =>
      intro offset hle
      by_cases hemp : ((remote.drop offset).take pageLimit).isEmpty
      · have htake : (remote.drop offset).take pageLimit = [] := List.isEmpty_iff.mp hemp
        have hdrop : remote.drop offset = [] := by
          rcases List.take_eq_nil_iff.mp htake with h | h
          · exact absurd h (by simp [pageLimit])
          · exact h
        have hlen0 : remote.length - offset = 0 := by
          have hld := List.length_drop offset remote
          rw [hdrop] at hld
          simpa using hld.symm
        rw [getAllFrom]
        simp [hdrop, hlen0]
        rfl
      · by_cases hshort : ((remote.drop offset).take pageLimit).length < pageLimit
        · have hlen : (remote.drop offset).length < pageLimit := by
            rw [List.length_take, Nat.min_def] at hshort
            split at hshort <;> omega
          have htake : (remote.drop offset).take pageLimit = remote.drop offset :=
            List.take_of_length_le (le_of_lt hlen)
          have hdiv0 : (remote.length - offset) / pageLimit = 0 := by
            apply Nat.div_eq_of_lt
            rw [List.length_drop] at hlen
            omega
          rw [getAllFrom]
          simp only [hemp, Bool.false_eq_true, if_false, hshort, if_true, hdiv0]
          rw [htake]
          rfl
        · have htl : ((remote.drop offset).take pageLimit).length = pageLimit := by
            have h1 := List.length_take pageLimit (remote.drop offset)
            omega
          have hge : pageLimit ≤ remote.length - offset := by
            rw [List.length_take, List.length_drop, Nat.min_def] at htl
            split at htl <;> omega
          have hpl : 0 < pageLimit := by decide
          have ihapp := ih (offset + pageLimit) (by omega)
          rw [getAllFrom]
          simp only [hemp, Bool.false_eq_true, if_false, hshort]
          rw [ihapp]
          have hpart1 : ((remote.drop offset).take pageLimit) ++ remote.drop (offset + pageLimit) =
              remote.drop offset := by
            rw [← List.drop_drop]
            exact List.take_append_drop _ _
          have hdiv : (remote.length - offset) / pageLimit =
              (remote.length - (offset + pageLimit)) / pageLimit + 1 := by
            rw [Nat.div_eq_sub_div hpl hge, Nat.sub_sub]
          rw [hdiv, range_map_mul_shift offset pageLimit
            ((remote.length - (offset + pageLimit)) / pageLimit + 1), hpart1]
  intro offset
  exact main (remote.length - offset) offset le_rfl

/-! ### Scheduler lemmas -/

theorem dictSet_keys (p : Plan) (k : String) (v : SchedEntry) :
    ((dictSet p k v).map Prod.fst).toFinset = insert k ((p.map Prod.fst).toFinset) := by
  by_cases h : p.any (fun e => e.1 == k)
  · rw [dictSet, if_pos h]
    have hk : k ∈ p.map Prod.fst := by
      obtain ⟨e, he, hek⟩ := List.any_eq_true.mp h
      exact (eq_of_beq hek) ▸ List.mem_map_of_mem Prod.fst he
    have hmap : (p.map (fun e => if e.1 == k then (k, v) else e)).map Prod.fst
        = p.map Prod.fst := by
      rw [List.map_map]
      apply List.map_congr_left
      intro e _
      by_cases hek : e.1 = k
      · simp [hek]
      · simp [hek]
    rw [hmap, Finset.insert_eq_self.mpr (List.mem_toFinset.mpr hk)]
  · rw [dictSet, if_neg h]
    simp [List.toFinset_append, Finset.insert_eq, Finset.union_comm]

theorem find_cons_key_pos (l : List (String × SchedEntry)) (a : String × SchedEntry)
    (k : String) (h : a.1 = k) :
    (a :: l).find? (fun e => e.1 == k) = some a := by
  apply List.find?_cons_of_pos
  simp [h]

theorem find_cons_key_neg (l : List (String × SchedEntry)) (a : String × SchedEntry)
    (k : String) (h : ¬ a.1 = k) :
    (a :: l).find? (fun e => e.1 == k) = l.find? (fun e => e.1 == k) := by
  apply List.find?_cons_of_neg
  simp [h]

theorem find_map_replace (p : Plan) (k : String) (v : SchedEntry) :
    p.any (fun e => e.1 == k) = true →
    (p.map (fun e => if e.1 == k then (k, v) else e)).find? (fun e => e.1 == k)
      = some (k, v) := by
  induction p with
  | nil => intro h; simp at h
  | cons e p ih =>
    intro h
    by_cases he : e.1 = k
    · simp only [List.map_cons, if_pos (by simp [he] : (e.1 == k) = true)]
      exact find_cons_key_pos _ _ _ rfl
    · simp only [List.map_cons, if_neg (by simp [he] : ¬ (e.1 == k) = true)]
      rw [find_cons_key_neg _ _ _ he]
      apply ih
      simpa [he] using h

theorem find_append_nomatch (p : Plan) (k : String) (v : SchedEntry)
    (h : ∀ e ∈ p, ¬ e.1 = k) :
    (p ++ [(k, v)]).find? (fun e => e.1 == k) = some (k, v) := by
  induction p with
  | nil => rw [List.nil_append, find_cons_key_pos [] (k, v) k rfl]
  | cons e p ih =>
    rw [List.cons_append, find_cons_key_neg _ _ _ (h e (List.mem_cons_self _ _))]
    exact ih (fun e2 he2 => h e2 (List.mem_cons_of_mem _ he2))

theorem dictGet_dictSet_self (p : Plan) (k : String) (v : SchedEntry) :
    dictGet (dictSet p k v) k = some v := by
  by_cases h : p.any (fun e => e.1 == k)
  · rw [dictGet, dictSet, if_pos h, find_map_replace p k v h]
    rfl
  · rw [dictGet, dictSet, if_neg h, find_append_nomatch]
    · rfl
    · intro e he hk
      apply h
      exact List.any_eq_true.mpr ⟨e, he, by simp [hk]⟩

theorem find_map_replace_ne (p : Plan) (k k2 : String) (v : SchedEntry) (hne : k ≠ k2) :
    (p.map (fun e => if e.1 == k2 then (k2, v) else e)).find? (fun e => e.1 == k)
      = p.find? (fun e => e.1 == k) := by
  induction p with
  | nil => rfl
  | cons e p ih =>
    by_cases he : e.1 = k2
    · simp only [List.map_cons, if_pos (by simp [he] : (e.1 == k2) = true)]
      rw [find_cons_key_neg _ _ _ (Ne.symm hne), find_cons_key_neg _ _ _ (by rw [he]; exact Ne.symm hne), ih]
    · simp only [List.map_cons, if_neg (by simp [he] : ¬ (e.1 == k2) = true)]
      by_cases hek : e.1 = k
      · rw [find_cons_key_pos _ _ _ hek, find_cons_key_pos _ _ _ hek]
      · rw [find_cons_key_neg _ _ _ hek, find_cons_key_neg _ _ _ hek, ih]

theorem find_append_ne (p : Plan) (k k2 : String) (v : SchedEntry) (hne : k ≠ k2) :
    (p ++ [(k2, v)]).find? (fun e => e.1 == k) = p.find? (fun e => e.1 == k) := by
  induction p with
  | nil =>
    rw [List.nil_append, find_cons_key_neg [] (k2, v) k (Ne.symm hne)]
  | cons e p ih =>
    by_cases hek : e.1 = k
    · rw [List.cons_append, find_cons_key_pos _ _ _ hek, find_cons_key_pos _ _ _ hek]
    · rw [List.cons_append, find_cons_key_neg _ _ _ hek, find_cons_key_neg _ _ _ hek, ih]

theorem dictGet_dictSet_ne (p : Plan) (k k2 : String) (v : SchedEntry) (hne : k ≠ k2) :
    dictGet (dictSet p k2 v) k = dictGet p k := by
  by_cases h : p.any (fun e => e.1 == k2)
  · rw [dictGet, dictSet, if_pos h, find_map_replace_ne p k k2 v hne]
    rfl
  · rw [dictGet, dictSet, if_neg h, find_append_ne p k k2 v hne]
    rfl

theorem syncFold_keys :
    ∀ (crontab_ok : CrontabOk) (sd : List (String × RawValue)) (init : Plan)
      (acc : List SyncLogEvent),
    (((sd.foldl (syncFoldStep crontab_ok) (init, acc)).1).map Prod.fst).toFinset =
      ((init.map Prod.fst).toFinset) ∪ (sd.filterMap (addedKey crontab_ok)).toFinset := by
  intro crontab_ok sd
  induction sd with
  | nil => intro init acc; simp
  | cons kv sd ih =>
    intro init acc
    cases hv : kv.2 with
    | invalid =>
      simp only [List.foldl_cons, List.filterMap_cons,
        show syncFoldStep crontab_ok (init, acc) kv = (init, acc ++ [.parseFailed kv.1]) from by
          simp [syncFoldStep, hv],
        show addedKey crontab_ok kv = none from by simp [addedKey, hv]]
      exact ih _ _
    | valid cfg =>
      cases hb : buildTaskSchedule crontab_ok cfg with
      | none =>
        simp only [List.foldl_cons, List.filterMap_cons,
          show syncFoldStep crontab_ok (init, acc) kv = (init, acc ++ [.addFailed kv.1]) from by
            simp [syncFoldStep, hv, add_or_update_task, hb],
          show addedKey crontab_ok kv = none from by simp [addedKey, hv, hb]]
        exact ih _ _
      | some sched =>
        cases ht : cfg.task with
        | none =>
          simp only [List.foldl_cons, List.filterMap_cons,
            show syncFoldStep crontab_ok (init, acc) kv = (init, acc ++ [.addFailed kv.1]) from by
              simp [syncFoldStep, hv, add_or_update_task, hb, ht],
            show addedKey crontab_ok kv = none from by simp [addedKey, hv, hb, ht]]
          exact ih _ _
        | some t =>
          simp only [List.foldl_cons, List.filterMap_cons,
            show syncFoldStep crontab_ok (init, acc) kv
                = (dictSet init kv.1 (mkSchedEntry kv.1 cfg t sched), acc) from by
              simp [syncFoldStep, hv, add_or_update_task, hb, ht],
            show addedKey crontab_ok kv = some kv.1 from by simp [addedKey, hv, hb, ht]]
          rw [ih _ _, dictSet_keys]
          ext x
          simp

theorem syncFold_log :
    ∀ (crontab_ok : CrontabOk) (sd : List (String × RawValue)) (init : Plan)
      (acc : List SyncLogEvent),
    (sd.foldl (syncFoldStep crontab_ok) (init, acc)).2
      = acc ++ (sd.map (entryLog crontab_ok)).flatten := by
  intro crontab_ok sd
  induction sd with
  | nil => intro init acc; simp
  | cons kv sd ih =>
    intro init acc
    cases hv : kv.2 with
    | invalid =>
      simp only [List.foldl_cons, List.map_cons, List.flatten_cons,
        show syncFoldStep crontab_ok (init, acc) kv = (init, acc ++ [.parseFailed kv.1]) from by
          simp [syncFoldStep, hv],
        show entryLog crontab_ok kv = [.parseFailed kv.1] from by simp [entryLog, hv]]
      rw [ih _ _, List.append_assoc]
    | valid cfg =>
      cases hb : buildTaskSchedule crontab_ok cfg with
      | none =>
        simp only [List.foldl_cons, List.map_cons, List.flatten_cons,
          show syncFoldStep crontab_ok (init, acc) kv = (init, acc ++ [.addFailed kv.1]) from by
            simp [syncFoldStep, hv, add_or_update_task, hb],
          show entryLog crontab_ok kv = [.addFailed kv.1] from by simp [entryLog, hv, hb]]
        rw [ih _ _, List.append_assoc]
      | some sched =>
        cases ht : cfg.task with
        | none =>
          simp only [List.foldl_cons, List.map_cons, List.flatten_cons,
            show syncFoldStep crontab_ok (init, acc) kv = (init, acc ++ [.addFailed kv.1]) from by
              simp [syncFoldStep, hv, add_or_update_task, hb, ht],
            show entryLog crontab_ok kv = [.addFailed kv.1] from by simp [entryLog, hv, hb, ht]]
          rw [ih _ _, List.append_assoc]
        | some t =>
          simp only [List.foldl_cons, List.map_cons, List.flatten_cons,
            show syncFoldStep crontab_ok (init, acc) kv
                = (dictSet init kv.1 (mkSchedEntry kv.1 cfg t sched), acc) from by
              simp [syncFoldStep, hv, add_or_update_task, hb, ht],
            show entryLog crontab_ok kv = [] from by simp [entryLog, hv, hb, ht]]
          rw [ih _ _, List.nil_append]

theorem syncFold_get_untouched :
    ∀ (crontab_ok : CrontabOk) (sd : List (String × RawValue)) (p : Plan)
      (acc : List SyncLogEvent) (n : String),
    n ∉ sd.map Prod.fst →
    dictGet ((sd.foldl (syncFoldStep crontab_ok) (p, acc)).1) n = dictGet p n := by
  intro crontab_ok sd
  induction sd with
  | nil => intro p acc n _; rfl
  | cons kv sd ih =>
    intro p acc n hn
    have hne : n ≠ kv.1 := by
      intro h
      apply hn
      rw [List.map_cons, h]
      exact List.mem_cons_self _ _
    have hn2 : n ∉ sd.map Prod.fst := by
      intro h
      exact hn (by rw [List.map_cons]; exact List.mem_cons_of_mem _ h)
    cases hv : kv.2 with
    | invalid =>
      simp only [List.foldl_cons,
        show syncFoldStep crontab_ok (p, acc) kv = (p, acc ++ [.parseFailed kv.1]) from by
          simp [syncFoldStep, hv]]
      exact ih _ _ _ hn2
    | valid cfg =>
      cases hb : buildTaskSchedule crontab_ok cfg with
      | none =>
        simp only [List.foldl_cons,
          show syncFoldStep crontab_ok (p, acc) kv = (p, acc ++ [.addFailed kv.1]) from by
            simp [syncFoldStep, hv, add_or_update_task, hb]]
        exact ih _ _ _ hn2
      | some sched =>
        cases ht : cfg.task with
        | none =>
          simp only [List.foldl_cons,
            show syncFoldStep crontab_ok (p, acc) kv = (p, acc ++ [.addFailed kv.1]) from by
              simp [syncFoldStep, hv, add_or_update_task, hb, ht]]
          exact ih _ _ _ hn2
        | some t =>
          simp only [List.foldl_cons,
            show syncFoldStep crontab_ok (p, acc) kv
                = (dictSet p kv.1 (mkSchedEntry kv.1 cfg t sched), acc) from by
              simp [syncFoldStep, hv, add_or_update_task, hb, ht]]
          rw [ih _ _ _ hn2, dictGet_dictSet_ne p n kv.1 _ hne]

theorem syncFold_get :
    ∀ (crontab_ok : CrontabOk) (sd : List (String × RawValue)) (init : Plan)
      (acc : List SyncLogEvent) (n : String) (cfg : TaskConfig) (t : String)
      (sched : TaskSchedule),
    (n, RawValue.valid cfg) ∈ sd → cfg.task = some t →
    buildTaskSchedule crontab_ok cfg = some sched →
    (sd.map Prod.fst).Nodup →
    dictGet ((sd.foldl (syncFoldStep crontab_ok) (init, acc)).1) n
      = some (mkSchedEntry n cfg t sched) := by
  intro crontab_ok sd
  induction sd with
  | nil => intro init acc n cfg t sched h _ _ _; simp at h
  | cons kv sd ih =>
    intro init acc n cfg t sched hmem ht hb hnd
    rw [List.map_cons, List.nodup_cons] at hnd
    rcases List.mem_cons.mp hmem with h | h
    · have hk1 : kv.1 = n := by rw [← h]
      have hk2 : kv.2 = RawValue.valid cfg := by rw [← h]
      have hstep : syncFoldStep crontab_ok (init, acc) kv
          = (dictSet init n (mkSchedEntry n cfg t sched), acc) := by
        simp [syncFoldStep, hk2, add_or_update_task, hb, ht, hk1]
      rw [List.foldl_cons, hstep,
        syncFold_get_untouched crontab_ok sd _ acc n (hk1 ▸ hnd.1)]
      exact dictGet_dictSet_self init n _
    · rw [List.foldl_cons]
      exact ih _ _ n cfg t sched h ht hb hnd.2

theorem filterMap_addedKey_all_valid :
    ∀ (crontab_ok : CrontabOk) (sd : List (String × RawValue)),
    (∀ kv ∈ sd, ∃ cfg t sched, kv.2 = RawValue.valid cfg ∧ cfg.task = some t ∧
      buildTaskSchedule crontab_ok cfg = some sched) →
    sd.filterMap (addedKey crontab_ok) = sd.map Prod.fst := by
  intro crontab_ok sd
  induction sd with
  | nil => intro _; rfl
  | cons kv sd ih =>
    intro hv
    obtain ⟨cfg, t, sched, hc, ht, hb⟩ := hv kv (List.mem_cons_self _ _)
    simp only [List.filterMap_cons, List.map_cons,
      show addedKey crontab_ok kv = some kv.1 from by simp [addedKey, hc, hb, ht]]
    rw [ih (fun e he => hv e (List.mem_cons_of_mem _ he))]

theorem flatten_entryLog_nil (crontab_ok : CrontabOk) (l : List (String × RawValue))
    (h : ∀ kv ∈ l, entryLog crontab_ok kv = []) :
    (l.map (entryLog crontab_ok)).flatten = [] := by
  induction l with
  | nil => rfl
  | cons kv l ih =>
    rw [List.map_cons, List.flatten_cons, h kv (List.mem_cons_self _ _), List.nil_append]
    exact ih (fun e he => h e (List.mem_cons_of_mem _ he))

/-! ### The claims -/

/-- C1 (counterexample): when the remote fetch returns zero records,
`_sync_contacts_async` returns early ("No contacts found in Odoo") and deletes
nothing, so a non-empty local store survives unchanged — contradicting the
claim that in this case every local row is deleted. -/
theorem claim_C1_counterexample :
    (sync_contacts_async isoId 0 [] [cRow 4]).2 = [cRow 4] ∧
    [cRow 4] ≠ ([] : List Contact) := ⟨rfl, by simp⟩

/-- C1 (amended): for every reconciliation run of an entity kind, when the
remote fetch returns at least one record, every local row whose remote id is
absent from the fetched ids is deleted; when the remote fetch returns zero
records the run returns early and no local row is deleted. -/
theorem claim_C1_amended :
    (∀ (fromiso : String → Option String) (now : Nat)
       (remote : List RemoteContact) (store : List Contact),
      (remote = [] → sync_contacts_async fromiso now remote store = (none, store)) ∧
      (remote ≠ [] → ∀ i, i ∈ store.map (fun c => c.odoo_id) →
        i ∉ remote.map (fun r => r.id) →
        i ∉ ((sync_contacts_async fromiso now remote store).2).map (fun c => c.odoo_id))) ∧
    (∀ (fromiso : String → Option String) (now : Nat)
       (remote : List RemoteInvoice) (store : List Invoice),
      (remote = [] → sync_invoices_async fromiso now remote store = (none, store)) ∧
      (remote ≠ [] → ∀ i, i ∈ store.map (fun v => v.odoo_id) →
        i ∉ remote.map (fun r => r.id) →
        i ∉ ((sync_invoices_async fromiso now remote store).2).map (fun v => v.odoo_id))) := by
  constructor
  · intro fromiso now remote store
    constructor
    · intro h
      subst h
      rfl
    · intro hne i hi hni
      have hre : remote.isEmpty = false := by
        cases remote with
        | nil => exact absurd rfl hne
        | cons a l => rfl
      rw [sync_contacts_async, reconcileRun_eq]
      simp only [hre, Bool.false_eq_true, if_false]
      exact reconOutcome_deletes _ _ _ _ remote store i hi hni
  · intro fromiso now remote store
    constructor
    · intro h
      subst h
      rfl
    · intro hne i hi hni
      have hre : remote.isEmpty = false := by
        cases remote with
        | nil => exact absurd rfl hne
        | cons a l => rfl
      rw [sync_invoices_async, reconcileRun_eq]
      simp only [hre, Bool.false_eq_true, if_false]
      exact reconOutcome_deletes _ _ _ _ remote store i hi hni

/-- Witness for the amended C1 at a concrete input: with remote ids `{1}` and a
local row with id `4`, the row with id `4` is gone after the run. -/
theorem claim_C1_witness :
    (([rcRec 1] : List RemoteContact) ≠ [] ∧
      (4 : Int) ∈ ([cRow 4].map (fun c => c.odoo_id)) ∧
      (4 : Int) ∉ (([rcRec 1] : List RemoteContact).map (fun r => r.id))) ∧
    (4 : Int) ∉ ((sync_contacts_async isoId 0 [rcRec 1] [cRow 4]).2).map
      (fun c => c.odoo_id) :=
  ⟨⟨by simp, by decide, by decide⟩,
    (claim_C1_amended.1 isoId 0 [rcRec 1] [cRow 4]).2 (by simp) 4 (by decide) (by decide)⟩

/-- C2 (code-bug exhibit): `_sync_invoices_async` stores the raw `.get` results
for `amount_total`, `amount_residual` and `state`, so an upstream `False` is
stored as the Python `False` sentinel rather than as the null state; the
`odoo_value` helper defined inside the very same function for exactly this
conversion is never applied to these fields. -/
theorem claim_C2_false_sentinel :
    (sync_invoices_async isoId 0 [badRemoteInvoice] []).2 =
      [{ odoo_id := 1, name := "INV/1", move_type := "out_invoice", invoice_date := none,
         partner_id := none, partner_name := none, amount_total := Stored.falseVal,
         amount_residual := Stored.falseVal, state := Stored.falseVal, currency_id := none,
         currency_name := none, write_date := none, create_date := none,
         created_at := 0, updated_at := 0 }] ∧
    Stored.falseVal ≠ (Stored.null : Stored String) ∧
    odoo_value OdooVal.bfalse = none :=
  ⟨rfl, by decide, rfl⟩

/-- C3: reconciling the same remote snapshot (id-keyed, hence with distinct
remote ids, against a local store satisfying its unique-index invariant) twice
in a row makes the second pass perform zero inserts and zero deletes, and
change each surviving row at most in its `updated_at` bookkeeping. -/
theorem claim_C3_idempotent_second_pass :
    (∀ (fromiso : String → Option String) (now1 now2 : Nat)
       (remote : List RemoteContact) (store : List Contact),
      remote ≠ [] →
      (remote.map (fun r => r.id)).Nodup →
      (store.map (fun c => c.odoo_id)).Nodup →
      ∃ res2 : SyncResult,
        (sync_contacts_async fromiso now2 remote
          (sync_contacts_async fromiso now1 remote store).2).1 = some res2 ∧
        res2.inserted = 0 ∧ res2.deleted = 0 ∧
        List.Forall₂ (fun a b => b = a ∨ b = stampContact now2 a)
          (sync_contacts_async fromiso now1 remote store).2
          (sync_contacts_async fromiso now2 remote
            (sync_contacts_async fromiso now1 remote store).2).2) ∧
    (∀ (fromiso : String → Option String) (now1 now2 : Nat)
       (remote : List RemoteInvoice) (store : List Invoice),
      remote ≠ [] →
      (remote.map (fun r => r.id)).Nodup →
      (store.map (fun v => v.odoo_id)).Nodup →
      ∃ res2 : SyncResult,
        (sync_invoices_async fromiso now2 remote
          (sync_invoices_async fromiso now1 remote store).2).1 = some res2 ∧
        res2.inserted = 0 ∧ res2.deleted = 0 ∧
        List.Forall₂ (fun a b => b = a ∨ b = stampInvoice now2 a)
          (sync_invoices_async fromiso now1 remote store).2
          (sync_invoices_async fromiso now2 remote
            (sync_invoices_async fromiso now1 remote store).2).2) := by
  constructor
  · intro fromiso now1 now2 remote store hne hndR hndL
    exact reconcileRun_second_pass (fun r => r.id) (fun c => c.odoo_id)
      (updContact fromiso now1) (updContact fromiso now2)
      (mkContact fromiso now1) (mkContact fromiso now2) (stampContact now2)
      (fun r x => updContact_lid fromiso now1 r x)
      (fun r => mkContact_lid fromiso now1 r)
      (fun r x => updContact_lid fromiso now2 r x)
      (fun x => stampContact_lid now2 x)
      (fun r y => updContact_updContact fromiso now2 now1 r y)
      (fun r => updContact_mkContact fromiso now2 now1 r)
      (fun r x => updContact_stampContact fromiso now2 now2 r x)
      remote store hne hndR hndL
  · intro fromiso now1 now2 remote store hne hndR hndL
    exact reconcileRun_second_pass (fun r => r.id) (fun v => v.odoo_id)
      (updInvoice fromiso now1) (updInvoice fromiso now2)
      (mkInvoice fromiso now1) (mkInvoice fromiso now2) (stampInvoice now2)
      (fun r x => updInvoice_lid fromiso now1 r x)
      (fun r => mkInvoice_lid fromiso now1 r)
      (fun r x => updInvoice_lid fromiso now2 r x)
      (fun x => stampInvoice_lid now2 x)
      (fun r y => updInvoice_updInvoice fromiso now2 now1 r y)
      (fun r => updInvoice_mkInvoice fromiso now2 now1 r)
      (fun r x => updInvoice_stampInvoice fromiso now2 now2 r x)
      remote store hne hndR hndL

/-- Witness for C3 at a concrete snapshot. -/
theorem claim_C3_witness :
    (([rcRec 1] : List RemoteContact) ≠ [] ∧
      (([rcRec 1] : List RemoteContact).map (fun r => r.id)).Nodup ∧
      (([cRow 2] : List Contact).map (fun c => c.odoo_id)).Nodup) ∧
    (∃ res2 : SyncResult,
      (sync_contacts_async isoId 2 [rcRec 1]
        (sync_contacts_async isoId 1 [rcRec 1] [cRow 2]).2).1 = some res2 ∧
      res2.inserted = 0 ∧ res2.deleted = 0 ∧
      List.Forall₂ (fun a b => b = a ∨ b = stampContact 2 a)
        (sync_contacts_async isoId 1 [rcRec 1] [cRow 2]).2
        (sync_contacts_async isoId 2 [rcRec 1]
          (sync_contacts_async isoId 1 [rcRec 1] [cRow 2]).2).2) :=
  ⟨⟨by simp, by simp, by simp⟩,
    claim_C3_idempotent_second_pass.1 isoId 1 2 [rcRec 1] [cRow 2]
      (by simp) (by simp) (by simp)⟩

/-- C4: one sync run per entity kind is transactional — whenever any injected
error (failed fetch, database error mid-loop, failed commit) makes the run
return an error, the committed store is left exactly as it was and the error
is surfaced to the caller; a run with no failure commits precisely the
reconciled contents. -/
theorem claim_C4_atomicity :
    (∀ (fromiso : String → Option String) (now : Nat)
       (fetch : Except SyncErr (List RemoteContact)) (failAt : Option Nat)
       (commitOk : Bool) (committed : List Contact) (e : SyncErr),
      (sync_contacts_atomic fromiso now fetch failAt commitOk committed).1 = .error e →
      (sync_contacts_atomic fromiso now fetch failAt commitOk committed).2 = committed) ∧
    (∀ (fromiso : String → Option String) (now : Nat)
       (remote : List RemoteContact) (committed : List Contact),
      sync_contacts_atomic fromiso now (.ok remote) none true committed =
        (.ok (sync_contacts_async fromiso now remote committed).1,
         (sync_contacts_async fromiso now remote committed).2)) ∧
    (∀ (fromiso : String → Option String) (now : Nat)
       (fetch : Except SyncErr (List RemoteInvoice)) (failAt : Option Nat)
       (commitOk : Bool) (committed : List Invoice) (e : SyncErr),
      (sync_invoices_atomic fromiso now fetch failAt commitOk committed).1 = .error e →
      (sync_invoices_atomic fromiso now fetch failAt commitOk committed).2 = committed) ∧
    (∀ (fromiso : String → Option String) (now : Nat)
       (remote : List RemoteInvoice) (committed : List Invoice),
      sync_invoices_atomic fromiso now (.ok remote) none true committed =
        (.ok (sync_invoices_async fromiso now remote committed).1,
         (sync_invoices_async fromiso now remote committed).2)) := by
  refine ⟨?_, ?_, ?_, ?_⟩
  · intro fromiso now fetch failAt commitOk committed e h
    exact reconcileAtomic_error _ _ _ _ fetch failAt commitOk committed e h
  · intro fromiso now remote committed
    exact reconcileAtomic_ok _ _ _ _ remote committed
  · intro fromiso now fetch failAt commitOk committed e h
    exact reconcileAtomic_error _ _ _ _ fetch failAt commitOk committed e h
  · intro fromiso now remote committed
    exact reconcileAtomic_ok _ _ _ _ remote committed

/-- Witness for C4: a failing commit surfaces the error and leaves the
committed store untouched. -/
theorem claim_C4_witness :
    (sync_contacts_atomic isoId 7 (.ok [rcRec 1]) none false [cRow 2]).1
      = .error SyncErr.commitFailed ∧
    (sync_contacts_atomic isoId 7 (.ok [rcRec 1]) none false [cRow 2]).2 = [cRow 2] :=
  ⟨rfl, claim_C4_atomicity.1 isoId 7 (.ok [rcRec 1]) none false [cRow 2]
    SyncErr.commitFailed rfl⟩

/-- C5 (counterexample): a store holding a single unparsable entry under key
`"j"` leaves an unthrottled sync with an empty plan, so the plan's key set does
not equal the store's key set. -/
theorem claim_C5_counterexample :
    "j" ∈ (([("j", RawValue.invalid)] : List (String × RawValue)).map Prod.fst) ∧
    "j" ∉ (((sync_schedule_from_redis crontabOkAny 100 none 10
        (.ok [("j", RawValue.invalid)]) []).plan).map Prod.fst) ∧
    ¬ ((((sync_schedule_from_redis crontabOkAny 100 none 10
          (.ok [("j", RawValue.invalid)]) []).plan).map Prod.fst).toFinset
        = (([("j", RawValue.invalid)] : List (String × RawValue)).map Prod.fst).toFinset) :=
  ⟨by decide, by decide, by decide⟩

/-- C5 (amended): for every model of celery's eager crontab-field validation,
after one unthrottled synchronize call over a store whose entries all
deserialize to configs carrying the required `task` field and whose timing
rule construction succeeds, the plan's key set equals the store's key set as
read at the time of the call, and `last_sync` is advanced. -/
theorem claim_C5_amended :
    ∀ (crontab_ok : CrontabOk) (now : Nat) (last_sync : Option Nat) (sync_interval : Nat)
      (sd : List (String × RawValue)) (plan : Plan),
    (∀ t, last_sync = some t → sync_interval ≤ now - t) →
    (∀ kv ∈ sd, ∃ cfg t2 sched, kv.2 = RawValue.valid cfg ∧ cfg.task = some t2 ∧
      buildTaskSchedule crontab_ok cfg = some sched) →
    (((sync_schedule_from_redis crontab_ok now last_sync sync_interval
        (.ok sd) plan).plan).map Prod.fst).toFinset = (sd.map Prod.fst).toFinset ∧
    (sync_schedule_from_redis crontab_ok now last_sync sync_interval
        (.ok sd) plan).last_sync = some now := by
  intro crontab_ok now ls si sd plan hthr hval
  have hbody : sync_schedule_from_redis crontab_ok now ls si (.ok sd) plan
      = syncBody crontab_ok now ls (.ok sd) plan := by
    cases ls with
    | none => rfl
    | some t =>
      rw [sync_schedule_from_redis, if_neg (by have := hthr t rfl; omega)]
  rw [hbody, syncBody]
  refine ⟨?_, rfl⟩
  show (((sd.foldl (syncFoldStep crontab_ok)
      (plan.filter (fun e => decide (e.1 ∈ sd.map (fun e => e.1))), [])).1).map Prod.fst).toFinset
    = (sd.map Prod.fst).toFinset
  rw [syncFold_keys, filterMap_addedKey_all_valid crontab_ok sd hval]
  apply Finset.union_eq_right.mpr
  intro x hx
  rw [List.mem_toFinset] at hx
  obtain ⟨e, he, hfst⟩ := List.mem_map.mp hx
  have h2 := (List.mem_filter.mp he).2
  rw [decide_eq_true_eq] at h2
  rw [List.mem_toFinset, ← hfst]
  exact h2

/-- Witness for the amended C5 at a concrete store (an interval entry, whose
timing construction never raises, under a concrete validation instance). -/
theorem claim_C5_witness :
    ((((sync_schedule_from_redis crontabOkAny 100 none 10
          (.ok [("a", RawValue.valid cfgA)]) []).plan).map Prod.fst).toFinset
        = (([("a", RawValue.valid cfgA)] : List (String × RawValue)).map Prod.fst).toFinset) ∧
    (sync_schedule_from_redis crontabOkAny 100 none 10
        (.ok [("a", RawValue.valid cfgA)]) []).last_sync = some 100 :=
  claim_C5_amended crontabOkAny 100 none 10 [("a", RawValue.valid cfgA)] []
    (fun t h => Option.noConfusion h)
    (by
      intro kv hkv
      rw [List.mem_singleton] at hkv
      exact ⟨cfgA, "app.tasks.sync_contacts", .intervalRule 300, by rw [hkv], rfl, rfl⟩)

/-- C6: for every model of celery's eager crontab-field validation, with one
unparsable entry among entries that fully parse (decode, build their timing
rule, and carry the `task` field), an unthrottled synchronize still
incorporates every such valid entry into the plan, skips (and logs) only the
unparsable entry, and advances `last_sync`. -/
theorem claim_C6_parse_isolation :
    ∀ (crontab_ok : CrontabOk) (now : Nat) (last_sync : Option Nat) (sync_interval : Nat)
      (pre post : List (String × RawValue)) (bad : String) (plan : Plan),
    (∀ t, last_sync = some t → sync_interval ≤ now - t) →
    (∀ kv ∈ pre ++ post, ∃ cfg t2 sched, kv.2 = RawValue.valid cfg ∧ cfg.task = some t2 ∧
      buildTaskSchedule crontab_ok cfg = some sched) →
    ((pre ++ (bad, RawValue.invalid) :: post).map Prod.fst).Nodup →
    bad ∉ plan.map Prod.fst →
    (∀ kv ∈ pre ++ post, ∀ cfg t2 sched, kv.2 = RawValue.valid cfg → cfg.task = some t2 →
      buildTaskSchedule crontab_ok cfg = some sched →
      dictGet (sync_schedule_from_redis crontab_ok now last_sync sync_interval
          (.ok (pre ++ (bad, RawValue.invalid) :: post)) plan).plan kv.1
        = some (mkSchedEntry kv.1 cfg t2 sched)) ∧
    bad ∉ ((sync_schedule_from_redis crontab_ok now last_sync sync_interval
        (.ok (pre ++ (bad, RawValue.invalid) :: post)) plan).plan).map Prod.fst ∧
    (sync_schedule_from_redis crontab_ok now last_sync sync_interval
        (.ok (pre ++ (bad, RawValue.invalid) :: post)) plan).last_sync = some now ∧
    (sync_schedule_from_redis crontab_ok now last_sync sync_interval
        (.ok (pre ++ (bad, RawValue.invalid) :: post)) plan).log
      = [SyncLogEvent.parseFailed bad] := by
  intro crontab_ok now ls si pre post bad plan hthr hval hnd hbadplan
  set sd := pre ++ (bad, RawValue.invalid) :: post with hsd
  have hbody : sync_schedule_from_redis crontab_ok now ls si (.ok sd) plan
      = syncBody crontab_ok now ls (.ok sd) plan := by
    cases ls with
    | none => rfl
    | some t =>
      rw [sync_schedule_from_redis, if_neg (by have := hthr t rfl; omega)]
  rw [hbody, syncBody]
  refine ⟨?_, ?_, rfl, ?_⟩
  · intro kv hkv cfg t2 sched hc ht hb
    show dictGet ((sd.foldl (syncFoldStep crontab_ok)
        (plan.filter (fun e => decide (e.1 ∈ sd.map (fun e => e.1))), [])).1) kv.1
      = some (mkSchedEntry kv.1 cfg t2 sched)
    apply syncFold_get crontab_ok sd _ _ kv.1 cfg t2 sched ?_ ht hb hnd
    have hkv2 : (kv.1, RawValue.valid cfg) = kv := by
      rw [← hc]
    rw [hkv2, hsd]
    rcases List.mem_append.mp hkv with h | h
    · exact List.mem_append.mpr (Or.inl h)
    · exact List.mem_append.mpr (Or.inr (List.mem_cons_of_mem _ h))
  · show bad ∉ ((sd.foldl (syncFoldStep crontab_ok)
        (plan.filter (fun e => decide (e.1 ∈ sd.map (fun e => e.1))), [])).1).map Prod.fst
    intro hmem
    have hmem2 := List.mem_toFinset.mpr hmem
    rw [syncFold_keys] at hmem2
    rcases Finset.mem_union.mp hmem2 with h | h
    · rw [List.mem_toFinset] at h
      obtain ⟨e, he, hfst⟩ := List.mem_map.mp h
      exact hbadplan (hfst ▸ List.mem_map_of_mem Prod.fst (List.mem_of_mem_filter he))
    · rw [List.mem_toFinset] at h
      obtain ⟨kv, hkv, hadd⟩ := List.mem_filterMap.mp h
      have hkv1 : kv.1 = bad := by
        cases hv : kv.2 with
        | invalid => simp [addedKey, hv] at hadd
        | valid cfg =>
          cases hb : buildTaskSchedule crontab_ok cfg with
          | none => simp [addedKey, hv, hb] at hadd
          | some sched =>
            cases ht : cfg.task with
            | none => simp [addedKey, hv, hb, ht] at hadd
            | some t => simpa [addedKey, hv, hb, ht] using hadd
      have heq : kv = (bad, RawValue.invalid) :=
        List.inj_on_of_nodup_map hnd hkv
          (by rw [hsd]; exact List.mem_append.mpr (Or.inr (List.mem_cons_self _ _))) hkv1
      rw [heq] at hadd
      simp [addedKey] at hadd
  · show (sd.foldl (syncFoldStep crontab_ok)
        (plan.filter (fun e => decide (e.1 ∈ sd.map (fun e => e.1))), [])).2
      = [SyncLogEvent.parseFailed bad]
    rw [syncFold_log, List.nil_append, hsd, List.map_append, List.map_cons,
      List.flatten_append, List.flatten_cons,
      flatten_entryLog_nil crontab_ok pre (fun kv hkv => by
        obtain ⟨cfg, t2, sched, hc, ht, hb⟩ := hval kv (List.mem_append.mpr (Or.inl hkv))
        simp [entryLog, hc, hb, ht]),
      flatten_entryLog_nil crontab_ok post (fun kv hkv => by
        obtain ⟨cfg, t2, sched, hc, ht, hb⟩ := hval kv (List.mem_append.mpr (Or.inr hkv))
        simp [entryLog, hc, hb, ht])]
    rfl

/-- Witness for C6 at a concrete store with one bad entry between two valid
interval entries, under a concrete validation instance. -/
theorem claim_C6_witness :
    dictGet (sync_schedule_from_redis crontabOkAny 100 none 10
        (.ok ([("a", RawValue.valid cfgA)] ++ ("j", RawValue.invalid)
          :: [("b", RawValue.valid cfgA)])) []).plan "a"
      = some (mkSchedEntry "a" cfgA "app.tasks.sync_contacts" (.intervalRule 300)) ∧
    "j" ∉ ((sync_schedule_from_redis crontabOkAny 100 none 10
        (.ok ([("a", RawValue.valid cfgA)] ++ ("j", RawValue.invalid)
          :: [("b", RawValue.valid cfgA)])) []).plan).map Prod.fst ∧
    (sync_schedule_from_redis crontabOkAny 100 none 10
        (.ok ([("a", RawValue.valid cfgA)] ++ ("j", RawValue.invalid)
          :: [("b", RawValue.valid cfgA)])) []).last_sync = some 100 ∧
    (sync_schedule_from_redis crontabOkAny 100 none 10
        (.ok ([("a", RawValue.valid cfgA)] ++ ("j", RawValue.invalid)
          :: [("b", RawValue.valid cfgA)])) []).log
      = [SyncLogEvent.parseFailed "j"] := by
  have h := claim_C6_parse_isolation crontabOkAny 100 none 10
    [("a", RawValue.valid cfgA)] [("b", RawValue.valid cfgA)] "j" []
    (fun t ht => Option.noConfusion ht)
    (by
      intro kv hkv
      rcases List.mem_append.mp hkv with h1 | h1 <;> rw [List.mem_singleton] at h1 <;>
        exact ⟨cfgA, "app.tasks.sync_contacts", .intervalRule 300, by rw [h1], rfl, rfl⟩)
    (by decide) (by simp)
  exact ⟨h.1 ("a", RawValue.valid cfgA) (by simp) cfgA "app.tasks.sync_contacts"
      (.intervalRule 300) rfl rfl rfl,
    h.2.1, h.2.2.1, h.2.2.2⟩

/-- C7: against a fixed remote snapshot served in `search_read` offset/limit
pages, the pagination loop returns exactly the snapshot in order while issuing
requests at offsets `0, 100, 200, ...` up to and including the first short
page; with exactly 150 records it issues exactly the two requests `0` and
`100` and never one at `200`; any request whose page is short is the last
request of the run. -/
theorem claim_C7_pagination :
    (∀ remote : List RemoteContact, remote.length = 150 →
      get_all_contacts remote = (remote, [0, 100]) ∧
      ¬ (200 ∈ (get_all_contacts remote).2)) ∧
    (∀ remote : List RemoteContact,
      (get_all_contacts remote).1 = remote ∧
      (get_all_contacts remote).2
        = (List.range (remote.length / pageLimit + 1)).map (fun k => k * pageLimit)) ∧
    (∀ remote : List RemoteContact, ∀ o ∈ (get_all_contacts remote).2,
      ((remote.drop o).take pageLimit).length < pageLimit →
      ∀ o2 ∈ (get_all_contacts remote).2, o2 ≤ o) ∧
    (∀ remote : List RemoteInvoice,
      (get_all_invoices remote).1 = remote ∧
      (get_all_invoices remote).2
        = (List.range (remote.length / pageLimit + 1)).map (fun k => k * pageLimit)) := by
  have hgen : ∀ {α : Type} (remote : List α),
      getAllFrom remote 0
        = (remote, (List.range (remote.length / pageLimit + 1)).map
            (fun k => k * pageLimit)) := by
    intro α remote
    rw [getAllFrom_spec remote 0]
    simp
  refine ⟨?_, ?_, ?_, ?_⟩
  · intro remote h150
    have h2 : get_all_contacts remote = (remote, [0, 100]) := by
      rw [get_all_contacts, hgen remote, h150]
      rfl
    refine ⟨h2, ?_⟩
    rw [h2]
    show ¬ (200 ∈ ([0, 100] : List Nat))
    decide
  · intro remote
    rw [get_all_contacts, hgen remote]
    exact ⟨rfl, rfl⟩
  · intro remote o ho hshort o2 ho2
    rw [get_all_contacts, hgen remote] at ho ho2
    simp only [List.mem_map, List.mem_range] at ho ho2
    obtain ⟨k, hk, hko⟩ := ho
    obtain ⟨k2, hk2, hko2⟩ := ho2
    subst hko
    subst hko2
    have hlen2 : remote.length - k * pageLimit < pageLimit := by
      rw [List.length_take, List.length_drop, Nat.min_def] at hshort
      split at hshort <;> omega
    have hle : (remote.length / pageLimit) * pageLimit ≤ remote.length :=
      Nat.div_mul_le_self _ _
    have hplv : pageLimit = 100 := rfl
    rw [hplv] at hlen2 hle hk hk2 ⊢
    have hb : k * 100 ≤ (remote.length / 100) * 100 :=
      Nat.mul_le_mul_right 100 (by omega)
    have hb2 : k2 * 100 ≤ (remote.length / 100) * 100 :=
      Nat.mul_le_mul_right 100 (by omega)
    omega
  · intro remote
    rw [get_all_invoices, hgen remote]
    exact ⟨rfl, rfl⟩

/-- Witness for C7 on a concrete 150-record snapshot. -/
theorem claim_C7_witness :
    remote150.length = 150 ∧
    get_all_contacts remote150 = (remote150, [0, 100]) ∧
    ¬ (200 ∈ (get_all_contacts remote150).2) :=
  ⟨by simp [remote150],
    (claim_C7_pagination.1 remote150 (by simp [remote150])).1,
    (claim_C7_pagination.1 remote150 (by simp [remote150])).2⟩

/-- C8: reconciling remote ids `{1, 2, 3}` against local rows with ids
`{2, 3, 4}` inserts the row for 1, updates the rows for 2 and 3, deletes the
row for 4, and reports `inserted = 1, updated = 2, deleted = 1, total = 3`. -/
theorem claim_C8_example :
    ∀ (fromiso : String → Option String) (now : Nat),
    (sync_contacts_async fromiso now [rcRec 1, rcRec 2, rcRec 3]
        [cRow 2, cRow 3, cRow 4]).1
      = some { inserted := 1, updated := 2, deleted := 1, total := 3 } ∧
    (sync_contacts_async fromiso now [rcRec 1, rcRec 2, rcRec 3]
        [cRow 2, cRow 3, cRow 4]).2
      = [{ odoo_id := 2, name := "n", email := none, phone := none, write_date := none,
           created_at := 0, updated_at := now },
         { odoo_id := 3, name := "n", email := none, phone := none, write_date := none,
           created_at := 0, updated_at := now },
         { odoo_id := 1, name := "n", email := none, phone := none, write_date := none,
           created_at := now, updated_at := now }] := by
  intro fromiso now
  exact ⟨rfl, rfl⟩

/-- C9: when reading the schedule store fails, the whole sync attempt is
aborted with the plan unmutated, `last_sync` not advanced and nothing logged,
so the next tick will retry the sync. -/
theorem claim_C9_store_error :
    ∀ (crontab_ok : CrontabOk) (now : Nat) (last_sync : Option Nat)
      (sync_interval : Nat) (plan : Plan) (e : Unit),
    sync_schedule_from_redis crontab_ok now last_sync sync_interval (.error e) plan
      = ⟨plan, last_sync, []⟩ := by
  intro crontab_ok now ls si plan e
  cases ls with
  | none => rfl
  | some t =>
    rw [sync_schedule_from_redis]
    split
    · rfl
    · rfl

/-- C10: every successful run (at least one remote record fetched) reports
`inserted + updated = total`, `total` the number of fetched records, and
`deleted` the number of distinct local remote-ids absent from the fetched
ids. -/
theorem claim_C10_result_invariant :
    (∀ (fromiso : String → Option String) (now : Nat)
       (remote : List RemoteContact) (store : List Contact), remote ≠ [] →
      ∃ res : SyncResult, (sync_contacts_async fromiso now remote store).1 = some res ∧
        res.inserted + res.updated = res.total ∧
        res.total = remote.length ∧
        res.deleted = ((store.map (fun c => c.odoo_id)).toFinset
          \ (remote.map (fun r => r.id)).toFinset).card) ∧
    (∀ (fromiso : String → Option String) (now : Nat)
       (remote : List RemoteInvoice) (store : List Invoice), remote ≠ [] →
      ∃ res : SyncResult, (sync_invoices_async fromiso now remote store).1 = some res ∧
        res.inserted + res.updated = res.total ∧
        res.total = remote.length ∧
        res.deleted = ((store.map (fun v => v.odoo_id)).toFinset
          \ (remote.map (fun r => r.id)).toFinset).card) := by
  constructor
  · intro fromiso now remote store hne
    have hre : remote.isEmpty = false := by
      cases remote with
      | nil => exact absurd rfl hne
      | cons a l => rfl
    rw [sync_contacts_async, reconcileRun_eq]
    simp only [hre, Bool.false_eq_true, if_false]
    obtain ⟨h1, h2, h3⟩ := reconOutcome_counts (fun r => r.id) (fun c => c.odoo_id)
      (updContact fromiso now) (mkContact fromiso now) remote store
    exact ⟨_, rfl, by rw [h2]; exact h1, h2, h3⟩
  · intro fromiso now remote store hne
    have hre : remote.isEmpty = false := by
      cases remote with
      | nil => exact absurd rfl hne
      | cons a l => rfl
    rw [sync_invoices_async, reconcileRun_eq]
    simp only [hre, Bool.false_eq_true, if_false]
    obtain ⟨h1, h2, h3⟩ := reconOutcome_counts (fun r => r.id) (fun v => v.odoo_id)
      (updInvoice fromiso now) (mkInvoice fromiso now) remote store
    exact ⟨_, rfl, by rw [h2]; exact h1, h2, h3⟩

/-- Witness for C10 at a concrete run. -/
theorem claim_C10_witness :
    (([rcRec 1, rcRec 2] : List RemoteContact) ≠ []) ∧
    (∃ res : SyncResult,
      (sync_contacts_async isoId 5 [rcRec 1, rcRec 2] [cRow 2, cRow 9]).1 = some res ∧
      res.inserted + res.updated = res.total ∧
      res.total = 2 ∧
      res.deleted = ((([cRow 2, cRow 9] : List Contact).map (fun c => c.odoo_id)).toFinset
        \ (([rcRec 1, rcRec 2] : List RemoteContact).map (fun r => r.id)).toFinset).card) := by
  refine ⟨by simp, ?_⟩
  obtain ⟨res, h1, h2, h3, h4⟩ := claim_C10_result_invariant.1 isoId 5
    [rcRec 1, rcRec 2] [cRow 2, cRow 9] (by simp)
  exact ⟨res, h1, h2, by rw [h3]; rfl, h4⟩

end OdooSync
